import Mathlib

/-!
Verification of docker-container-init

A shallow embedding of `docker-container-init.c`.  The program is a
single-threaded supervisor: it blocks a set of signals, forks the configured
command, and then alternates between `update_state` (a cursor over four
shutdown steps) and `wait_and_handle_signals` (synchronous `sigwait`).

The kernel is modelled by explicit inputs: the results that successive
`sigwait` calls produce, the results that successive `waitpid(-1, _, WNOHANG)`
calls produce, and a record with the results of the calls made during `init`.
Everything the program does to the outside world (`kill`, `killpg`) and the
internal events the properties speak about are appended to a history kept in
the state.  Logging (`LOG_*`) writes to stderr only and is left out.
-/

namespace DockerContainerInit

/-! ## System constants (Linux generic numbering, `<signal.h>`, `<errno.h>`) -/

abbrev SIGHUP : Int := 1
abbrev SIGINT : Int := 2
abbrev SIGQUIT : Int := 3
abbrev SIGUSR1 : Int := 10
abbrev SIGUSR2 : Int := 12
abbrev SIGTERM : Int := 15
abbrev SIGCHLD : Int := 17
abbrev SIGTTOU : Int := 22
abbrev SIGRTMIN : Int := 34
abbrev SIGRTMAX : Int := 64
abbrev ECHILD : Int := 10
abbrev ENOTTY : Int := 25

/-! ## Wait-status macros (glibc `<sys/wait.h>`, `<bits/waitstatus.h>`)

The status word is the non-negative bit pattern the kernel stores. -/

/-- The macro `WEXITSTATUS(status)` is `((status) & 0xff00) >> 8`. -/
def WEXITSTATUS (status : Nat) : Nat := (status &&& 0xff00) >>> 8

/-- The macro `WTERMSIG(status)` is `(status) & 0x7f`. -/
def WTERMSIG (status : Nat) : Nat := status &&& 0x7f

/-- The macro `WIFEXITED(status)` is `WTERMSIG(status) == 0`. -/
def WIFEXITED (status : Nat) : Bool := WTERMSIG status == 0

/-- The macro `WIFSIGNALED(status)` is `((signed char) (((status) & 0x7f) + 1) >> 1) > 0`. -/
def WIFSIGNALED (status : Nat) : Bool :=
  let v : Int := ((status &&& 0x7f) + 1 : Nat)
  let sc : Int := if v ≥ 128 then v - 256 else v
  decide (sc / 2 > 0)

/-! ## Data model -/

/-- The option variables and `subproc_argv`, as `parse_args` leaves them. -/
structure Config where
  wait_for_children : Bool
  broadcast_sigterm_before_wait : Bool
  create_subproc_group : Bool
  forward_realtime_signals : Bool
  exit_on_sigint : Bool
  check_pid_1 : Bool
  verbosity : Int
  /-- The value `none` is `subproc_argv == NULL`: no command on the command line. -/
  subproc_argv : Option (List String)
  deriving DecidableEq, Repr

/-- The defaults of the option variables (no flag given, no command). -/
def Config.default : Config :=
  { wait_for_children := true, broadcast_sigterm_before_wait := true,
    create_subproc_group := false, forward_realtime_signals := false,
    exit_on_sigint := true, check_pid_1 := true, verbosity := 0, subproc_argv := none }

/-- One result of `waitpid(-1, &status, WNOHANG)`: the returned pid, the status
word, and `errno` after the call. -/
structure WaitRes where
  pid : Int
  status : Nat
  errno : Int
  deriving DecidableEq, Repr

/-- One result of `sigwait(&used_sigmask, &signum)`. -/
inductive SigwaitRes where
  | ok (signum : Int)
  | err (code : Int)
  deriving DecidableEq, Repr

/-- The observable history of a run. -/
inductive Event where
  /-- The call `sigwait` dequeued `signum`. -/
  | sigwait (signum : Int)
  /-- The call `waitpid(-1, &status, WNOHANG)` returned. -/
  | waitpid (pid : Int) (status : Nat) (errno : Int)
  /-- The variable `exitcode` was assigned `code` while handling the reap of `pid`. -/
  | set_exitcode (pid : Int) (code : Int)
  /-- The call `kill(pid, sig)` was made. -/
  | kill (pid : Int) (sig : Int)
  /-- The call `killpg(pgrp, sig)` was made. -/
  | killpg (pgrp : Int) (sig : Int)
  /-- The call `steps[idx](first_try)` returned `finished` inside `update_state`. -/
  | step (idx : Nat) (first_try : Bool) (finished : Bool)
  deriving DecidableEq, Repr

/-- The mutable globals of the program (`step_idx` and `first_try` are the
statics of `update_state`), together with the history of the run so far. -/
structure State where
  subproc_pid : Int
  exitcode : Int
  exit_signal_received : Bool
  step_idx : Nat
  first_try : Bool
  trace : List Event
  deriving DecidableEq, Repr

/-- Append one event to the history. -/
def State.emit (s : State) (e : Event) : State :=
  { s with trace := s.trace ++ [e] }

/-! ## The reaper -/

/-- The exit code assigned when the subprocess has been reaped with `status`
(the `if`/`else if`/`else` of lines 208-217). -/
def exitcode_of_status (status : Nat) : Int :=
  if WIFEXITED status then (WEXITSTATUS status : Nat)
  else if WIFSIGNALED status then ((0x80 ||| WTERMSIG status : Nat) : Int)
  else -1

/-- The function `reap_zombies_and_subproc`: each iteration of the `for (;;)` consumes one
`waitpid` result.  The result is `some true` when there are no children,
`some false` when children exist but none is ready, and `none` when the loop
asks for a `waitpid` result beyond the ones supplied. -/
def reap_zombies_and_subproc : List WaitRes → State → Option Bool × State × List WaitRes
  | [], s => (none, s, [])
  | w :: ws, s =>
    let s := s.emit (.waitpid w.pid w.status w.errno)
    if w.pid = 0 then (some false, s, ws)
    else if w.pid < 0 then (some true, s, ws)
    else if w.pid = s.subproc_pid then
      let code := exitcode_of_status w.status
      reap_zombies_and_subproc ws
        (({ s with subproc_pid := 0, exitcode := code }).emit (.set_exitcode w.pid code))
    else reap_zombies_and_subproc ws s

/-! ## The shutdown steps -/

def step_check_subproc_finished (cfg : Config) (_first_try : Bool) (s : State) : Bool :=
  if cfg.subproc_argv.isNone then true
  else decide (s.subproc_pid ≤ 0)

def step_check_exit_signal_received (cfg : Config) (_first_try : Bool) (s : State) : Bool :=
  if cfg.subproc_argv.isSome then true
  else s.exit_signal_received

/-- The step `step_broadcast_sigterm` always returns true; the state is returned with
the `kill(-1, SIGTERM)` recorded when it is issued. -/
def step_broadcast_sigterm (cfg : Config) (_first_try : Bool) (s : State) : Bool × State :=
  if cfg.wait_for_children && cfg.broadcast_sigterm_before_wait then
    (true, s.emit (.kill (-1) SIGTERM))
  else (true, s)

def step_check_there_are_no_children (cfg : Config) (_first_try : Bool)
    (ws : List WaitRes) (s : State) : Option Bool × State × List WaitRes :=
  if !cfg.wait_for_children then (some true, s, ws)
  else reap_zombies_and_subproc ws s

def NUM_STEPS : Nat := 4

/-- The table `steps[]`, indexed by `step_idx`. -/
def steps (cfg : Config) (idx : Nat) (first_try : Bool) (ws : List WaitRes) (s : State) :
    Option Bool × State × List WaitRes :=
  match idx with
  | 0 => (some (step_check_subproc_finished cfg first_try s), s, ws)
  | 1 => (some (step_check_exit_signal_received cfg first_try s), s, ws)
  | 2 => let r := step_broadcast_sigterm cfg first_try s; (some r.1, r.2, ws)
  | 3 => step_check_there_are_no_children cfg first_try ws s
  | _ => (none, s, ws)

/-- The `while (step_idx < NUM_STEPS)` of `update_state`.  The first argument is
the loop variant `NUM_STEPS - step_idx`: it is zero exactly when the loop
condition fails. -/
def update_state_loop (cfg : Config) : Nat → List WaitRes → State → Option Bool × State × List WaitRes
  | 0, ws, s => (some true, s, ws)
  | n + 1, ws, s =>
    match steps cfg s.step_idx s.first_try ws s with
    | (none, s1, ws1) => (none, s1, ws1)
    | (some step_finished, s1, ws1) =>
      let s2 := ({ s1 with first_try := false }).emit (.step s.step_idx s.first_try step_finished)
      if !step_finished then (some false, s2, ws1)
      else update_state_loop cfg n ws1 { s2 with first_try := true, step_idx := s2.step_idx + 1 }

/-- The function `update_state`: returns `some true` if the program has finished. -/
def update_state (cfg : Config) (ws : List WaitRes) (s : State) : Option Bool × State × List WaitRes :=
  update_state_loop cfg (NUM_STEPS - s.step_idx) ws s

/-! ## The signal router -/

def forward_signal (signum : Int) (s : State) : State :=
  if s.subproc_pid ≤ 0 then s
  else s.emit (.kill s.subproc_pid signum)

/-- The function `handle_signal`: returns `some true` if the handled signal might have an
effect on the internal state of the program. -/
def handle_signal (cfg : Config) (signum : Int) (ws : List WaitRes) (s : State) :
    Option Bool × State × List WaitRes :=
  if signum = SIGCHLD then
    match reap_zombies_and_subproc ws s with
    | (none, s1, ws1) => (none, s1, ws1)
    | (some _, s1, ws1) => (some true, s1, ws1)
  else if signum = SIGTERM then
    let s1 :=
      if s.subproc_pid > 0 then
        if cfg.create_subproc_group then s.emit (.killpg s.subproc_pid SIGTERM)
        else forward_signal signum s
      else s
    (some true, { s1 with exit_signal_received := true }, ws)
  else if signum = SIGINT then
    if cfg.subproc_argv.isSome then (some false, forward_signal signum s, ws)
    else if cfg.exit_on_sigint then (some true, { s with exit_signal_received := true }, ws)
    else (some false, s, ws)
  else (some false, forward_signal signum s, ws)

/-- How `wait_and_handle_signals` stops. -/
inductive WaitExit where
  /-- The call of `handle_signal` returned true: `break`. -/
  | handled
  /-- The call of `sigwait` failed: `exit(code)`. -/
  | exit (code : Int)
  /-- The supplied inputs are used up: the process stays blocked. -/
  | blocked
  deriving DecidableEq, Repr

/-- The function `wait_and_handle_signals`: each iteration of the `for (;;)` consumes one
`sigwait` result. -/
def wait_and_handle_signals (cfg : Config) :
    List SigwaitRes → List WaitRes → State → WaitExit × State × List SigwaitRes × List WaitRes
  | [], ws, s => (.blocked, s, [], ws)
  | .err _ :: rest, ws, s => (.exit 1, s, rest, ws)
  | .ok signum :: rest, ws, s =>
    match handle_signal cfg signum ws (s.emit (.sigwait signum)) with
    | (none, s1, ws1) => (.blocked, s1, rest, ws1)
    | (some true, s1, ws1) => (.handled, s1, rest, ws1)
    | (some false, s1, ws1) => wait_and_handle_signals cfg rest ws1 s1

/-! ## Signal masks and `init` -/

/-- The mask of blocked signals is a finite set of signal numbers. -/
abbrev SigSet := Finset Int

inductive How where
  | SIG_BLOCK
  | SIG_SETMASK
  deriving DecidableEq, Repr

/-- The new process mask after `sigprocmask(how, set, _)` succeeds on `cur`. -/
def sigprocmask (how : How) (set cur : SigSet) : SigSet :=
  match how with
  | .SIG_BLOCK => cur ∪ set
  | .SIG_SETMASK => set

/-- What the kernel answers to the calls made by `init`. -/
structure Env where
  getpid : Int
  /-- The signal mask of the process on entry to `main`. -/
  procmask : SigSet
  /-- Return values of the three `sigprocmask` calls, in program order. -/
  sigprocmask_used_ret : Int
  sigprocmask_ttou_ret : Int
  sigprocmask_restore_ret : Int
  fork_ret : Int
  setpgrp_ret : Int
  tcsetpgrp_ret : Int
  tcsetpgrp_errno : Int
  /-- Whether `execvp` returns (with an error) instead of replacing the image. -/
  execvp_returns : Bool

def used_std_signals : List Int := [SIGHUP, SIGINT, SIGQUIT, SIGUSR1, SIGUSR2, SIGTERM, SIGCHLD]

/-- The masks after a successful `setup_sigmask`. -/
structure Masks where
  used_sigmask : SigSet
  orig_sigmask : SigSet
  /-- The mask of the process after the call. -/
  procmask : SigSet

/-- The value of `used_sigmask` that `setup_sigmask` computes. -/
def used_sigmask_of (cfg : Config) : SigSet :=
  let std : SigSet := used_std_signals.foldl (fun m sig => insert sig m) ∅
  if cfg.forward_realtime_signals then std ∪ Finset.Icc SIGRTMIN SIGRTMAX else std

/-- The function `setup_sigmask`: `none` when it returns false. -/
def setup_sigmask (cfg : Config) (env : Env) : Option Masks :=
  let used := used_sigmask_of cfg
  if env.sigprocmask_used_ret ≠ 0 then none
  else
    let orig := env.procmask
    let m1 := sigprocmask .SIG_BLOCK used env.procmask
    if env.sigprocmask_ttou_ret ≠ 0 then none
    else some { used_sigmask := used, orig_sigmask := orig,
                procmask := sigprocmask .SIG_BLOCK {SIGTTOU} m1 }

/-- How `spawn_subproc` ends in the process that called it or in the child. -/
inductive Spawn where
  /-- It returned false. -/
  | failed
  /-- It returned true in the parent, with `subproc_pid` set. -/
  | parent (subproc_pid : Int)
  /-- The child called `exit(code)`. -/
  | child_exit (code : Int)
  /-- The child replaced its image through `execvp` with the process mask
  `mask`; `tc_mask` is the mask during `tcsetpgrp` if that was called. -/
  | child_exec (argv : List String) (mask : SigSet) (tc_mask : Option SigSet)

/-- The function `spawn_subproc`, called with the masks left by `setup_sigmask`. -/
def spawn_subproc (cfg : Config) (env : Env) (m : Masks) (argv : List String) : Spawn :=
  if env.fork_ret < 0 then .failed
  else if env.fork_ret > 0 then .parent env.fork_ret
  else if cfg.create_subproc_group && env.setpgrp_ret ≠ 0 then .child_exit 1
  else if cfg.create_subproc_group && (env.tcsetpgrp_ret ≠ 0 && env.tcsetpgrp_errno ≠ ENOTTY) then
    .child_exit 1
  else if env.sigprocmask_restore_ret ≠ 0 then .failed
  else if env.execvp_returns then .child_exit 1
  else .child_exec argv (sigprocmask .SIG_SETMASK m.orig_sigmask m.procmask)
         (if cfg.create_subproc_group then some m.procmask else none)

/-- The initial values of the globals. -/
def State.initial : State :=
  { subproc_pid := 0, exitcode := 0, exit_signal_received := false,
    step_idx := 0, first_try := true, trace := [] }

/-- How `init` ends. -/
inductive Init where
  /-- It returned false. -/
  | failed
  /-- It returned true (in the supervisor). -/
  | ok (m : Masks) (s : State)
  | child_exit (code : Int)
  | child_exec (argv : List String) (mask : SigSet) (tc_mask : Option SigSet)

/-- The function `init` after `parse_args` has produced `cfg`. -/
def init (cfg : Config) (env : Env) : Init :=
  if cfg.check_pid_1 && env.getpid ≠ 1 then .failed
  else
    match setup_sigmask cfg env with
    | none => .failed
    | some m =>
      match cfg.subproc_argv with
      | none => .ok m State.initial
      | some argv =>
        match spawn_subproc cfg env m argv with
        | .failed => .failed
        | .parent pid => .ok m { State.initial with subproc_pid := pid }
        | .child_exit c => .child_exit c
        | .child_exec a mask tc => .child_exec a mask tc

/-! ## `main` -/

/-- How a run ends. -/
inductive Outcome where
  /-- The function `main` returned `code`. -/
  | returned (code : Int)
  /-- The call `exit(code)` was made. -/
  | exited (code : Int)
  /-- The forked child replaced its image. -/
  | execed
  /-- The supplied inputs are used up and the process waits for more. -/
  | blocked
  /-- The iteration bound of the model was reached. -/
  | out_of_fuel
  deriving DecidableEq, Repr

/-- The `for (;;)` of `main`.  Every iteration that does not end the run
consumes at least one `sigwait` result, so `sigs.length + 1` iterations
always suffice (`main_loop_fuel`). -/
def main_loop (cfg : Config) : Nat → List SigwaitRes → List WaitRes → State → Outcome × State
  | 0, _, _, s => (.out_of_fuel, s)
  | fuel + 1, sigs, ws, s =>
    match update_state cfg ws s with
    | (none, s1, _) => (.blocked, s1)
    | (some true, s1, _) => (.returned s1.exitcode, s1)
    | (some false, s1, ws1) =>
      match wait_and_handle_signals cfg sigs ws1 s1 with
      | (.handled, s2, sigs2, ws2) => main_loop cfg fuel sigs2 ws2 s2
      | (.exit c, s2, _, _) => (.exited c, s2)
      | (.blocked, s2, _, _) => (.blocked, s2)

/-- The function `main`, given the configuration, the answers to `init`, and the results
of the successive `sigwait` and `waitpid` calls. -/
def main (cfg : Config) (env : Env) (sigs : List SigwaitRes) (waits : List WaitRes) :
    Outcome × State :=
  match init cfg env with
  | .failed => (.returned 1, State.initial)
  | .child_exit c => (.exited c, State.initial)
  | .child_exec _ _ _ => (.execed, State.initial)
  | .ok _ s => main_loop cfg (sigs.length + 1) sigs waits s

/-! ## Definitions used by the statements and the proofs -/

/-- What one iteration of the reaper does to the state for the `waitpid`
result `w`. -/
def reap_one (w : WaitRes) (s : State) : State :=
  let s1 := s.emit (.waitpid w.pid w.status w.errno)
  if 0 < w.pid ∧ w.pid = s.subproc_pid then
    ({ s1 with subproc_pid := 0, exitcode := exitcode_of_status w.status }).emit
      (.set_exitcode w.pid (exitcode_of_status w.status))
  else s1

/-- The state after `update_state` has seen step `s.step_idx` return `r`,
where `s1` is the state the step left. -/
def step_done (s : State) (r : Bool) (s1 : State) : State :=
  let s2 := ({ s1 with first_try := false }).emit (.step s.step_idx s.first_try r)
  if r then { s2 with first_try := true, step_idx := s2.step_idx + 1 } else s2

/-- The state change of `handle_signal` for a signal other than SIGCHLD. -/
def route (cfg : Config) (signum : Int) (s : State) : State :=
  if signum = SIGTERM then
    { (if s.subproc_pid > 0 then
        (if cfg.create_subproc_group then s.emit (.killpg s.subproc_pid SIGTERM)
         else s.emit (.kill s.subproc_pid signum))
       else s) with exit_signal_received := true }
  else if signum = SIGINT then
    if cfg.subproc_argv.isSome then forward_signal signum s
    else if cfg.exit_on_sigint then { s with exit_signal_received := true }
    else s
  else forward_signal signum s

/-- A kernel in which every call of `init` succeeds, the supervisor is pid 1,
starts with an empty signal mask, and `fork` returns pid 7 to it. -/
def env0 : Env :=
  { getpid := 1, procmask := ∅, sigprocmask_used_ret := 0, sigprocmask_ttou_ret := 0,
    sigprocmask_restore_ret := 0, fork_ret := 7, setpgrp_ret := 0, tcsetpgrp_ret := 0,
    tcsetpgrp_errno := 0, execvp_returns := false }

/-- The configuration of `docker-container-init true`. -/
def cfgCmd : Config := { Config.default with subproc_argv := some ["true"] }

/-- A call of `kill` or `killpg`. -/
def Event.is_send : Event → Bool
  | .kill _ _ => true
  | .killpg _ _ => true
  | _ => false

/-- An assignment to `exitcode`. -/
def Event.is_set_exitcode : Event → Bool
  | .set_exitcode _ _ => true
  | _ => false

/-- The events that follow the first assignment to `exitcode` (empty if there
is none). -/
def after_first_reap : List Event → List Event
  | [] => []
  | e :: rest => if e.is_set_exitcode then rest else after_first_reap rest

/-- The history invariant of a run whose primary child, if any, has pid `p`. -/
structure TraceInv (p : Int) (t : State) : Prop where
  pid : t.subproc_pid = p ∨ t.subproc_pid = 0
  cleared : t.trace.any Event.is_set_exitcode = true → t.subproc_pid = 0
  after : ∀ e ∈ after_first_reap t.trace,
    e.is_set_exitcode = false ∧ (e.is_send = true → e = .kill (-1) SIGTERM)
  assigned : ∀ pid code, Event.set_exitcode pid code ∈ t.trace → pid = p ∧ 0 < p
  sends : ∀ e ∈ t.trace, e.is_send = true →
    e = .kill (-1) SIGTERM ∨ (0 < p ∧ ∃ sig, e = .kill p sig ∨ e = .killpg p sig)

/-- The pid of the primary child of a run: the result of `fork` when a
command is configured, and 0 (none) otherwise. -/
def primary_pid (cfg : Config) (env : Env) : Int :=
  if cfg.subproc_argv.isSome then env.fork_ret else 0

/-- A run of `init` in the forked child (`fork` returned 0) of a supervisor
started with an empty signal mask. -/
def env_child : Env :=
  { getpid := 1, procmask := ∅, sigprocmask_used_ret := 0, sigprocmask_ttou_ret := 0,
    sigprocmask_restore_ret := 0, fork_ret := 0, setpgrp_ret := 0, tcsetpgrp_ret := 0,
    tcsetpgrp_errno := 0, execvp_returns := false }

/-- The configuration of `docker-container-init -g sh`. -/
def cfg_group : Config :=
  { Config.default with create_subproc_group := true, subproc_argv := some ["sh"] }

/-- The first supplied `waitpid` result that carries pid `p`. -/
def first_reap (p : Int) (ws : List WaitRes) : Option WaitRes :=
  ws.find? (fun w => decide (w.pid = p))

/-- With a command and a live primary child of pid `p`: either the child is
still unreaped, the cursor is at step 1 and the first pending `waitpid` result
for `p` is the first one of the whole run; or the child has been reaped and
`exitcode` is the code of that first result. -/
def ExitInv (p : Int) (waits : List WaitRes) (t : State) (ws : List WaitRes) : Prop :=
  (t.subproc_pid = p ∧ t.step_idx = 0 ∧ first_reap p ws = first_reap p waits) ∨
  (t.subproc_pid = 0 ∧ ∃ w, first_reap p waits = some w ∧
    t.exitcode = exitcode_of_status w.status)

/-- An event recorded by the reaper. -/
def Event.is_reap : Event → Bool
  | .waitpid _ _ _ => true
  | .set_exitcode _ _ => true
  | _ => false

/-- Without a command: while the latch is clear the cursor is at one of the
first two steps; once it is set, a latching signal has been dequeued; and
every dequeued signal comes from the supplied sequence. -/
def LatchInv (cfg : Config) (sigs : List SigwaitRes) (t : State) (sg : List SigwaitRes) : Prop :=
  (t.exit_signal_received = false → t.step_idx ≤ 1) ∧
  (t.exit_signal_received = true →
    (Event.sigwait SIGTERM ∈ t.trace ∨
      (cfg.exit_on_sigint = true ∧ Event.sigwait SIGINT ∈ t.trace))) ∧
  (∀ x, Event.sigwait x ∈ t.trace → SigwaitRes.ok x ∈ sigs) ∧
  (∃ c, sigs = c ++ sg)

/-- An evaluation of the last step, `step_check_there_are_no_children`. -/
def Event.is_drain_step : Event → Bool
  | .step 3 _ _ => true
  | _ => false

/-- Before the cursor passes the broadcast step the history has neither the
broadcast nor an evaluation of the drain step; afterwards, if both flags are
set, the broadcast occurs exactly once, inside the third step and before every
evaluation of the drain step, and otherwise it does not occur. -/
def BcastInv (cfg : Config) (t : State) : Prop :=
  (t.step_idx ≤ 2 →
    Event.kill (-1) SIGTERM ∉ t.trace ∧ ∀ e ∈ t.trace, e.is_drain_step = false) ∧
  (3 ≤ t.step_idx →
    if (cfg.wait_for_children && cfg.broadcast_sigterm_before_wait) = true then
      ∃ pre post ft, t.trace = pre ++ Event.kill (-1) SIGTERM :: Event.step 2 ft true :: post ∧
        Event.kill (-1) SIGTERM ∉ pre ∧ Event.kill (-1) SIGTERM ∉ post ∧
        ∀ e ∈ pre, e.is_drain_step = false
    else Event.kill (-1) SIGTERM ∉ t.trace)

/-- With `wait_for_children`: the pending `waitpid` results are a suffix of
the supplied ones, and once the cursor is past the step table, the history
ends with a `waitpid` call that returned one of the supplied results, with a
negative value, followed by the completion of the drain step. -/
def DrainInv (waits : List WaitRes) (t : State) (ws : List WaitRes) : Prop :=
  (∃ c, waits = c ++ ws) ∧
  (NUM_STEPS ≤ t.step_idx →
    ∃ pre, ∃ w : WaitRes, ∃ ft,
      t.trace = pre ++ [.waitpid w.pid w.status w.errno, .step 3 ft true] ∧
      w ∈ waits ∧ w.pid < 0)

/-! ## Structure of the loops -/

theorem reap_nil (s : State) : reap_zombies_and_subproc [] s = (none, s, []) := rfl

theorem reap_cons (w : WaitRes) (ws : List WaitRes) (s : State) :
    reap_zombies_and_subproc (w :: ws) s =
      if w.pid = 0 then (some false, reap_one w s, ws)
      else if w.pid < 0 then (some true, reap_one w s, ws)
      else reap_zombies_and_subproc ws (reap_one w s) := by
  rw [reap_zombies_and_subproc]
  simp only [reap_one, State.emit]
  by_cases h0 : w.pid = 0
  · have : ¬ (0 < w.pid) := by omega
    simp [h0]
  · by_cases hneg : w.pid < 0
    · have : ¬ (0 < w.pid) := by omega
      simp [h0, hneg, this]
    · have hpos : 0 < w.pid := by omega
      by_cases he : w.pid = s.subproc_pid
      · have h0' : ¬ s.subproc_pid = 0 := he ▸ h0
        have hneg' : ¬ s.subproc_pid < 0 := he ▸ hneg
        have hpos' : 0 < s.subproc_pid := he ▸ hpos
        simp [h0', hneg', hpos', he]
      · simp [h0, hneg, hpos, he]

/-- Any property of (state, pending `waitpid` results) kept by one reaper
iteration is kept by the reaper. -/
theorem reap_inv (I : State → List WaitRes → Prop)
    (h1 : ∀ s w ws, I s (w :: ws) → I (reap_one w s) ws) :
    ∀ ws s, I s ws →
      I (reap_zombies_and_subproc ws s).2.1 (reap_zombies_and_subproc ws s).2.2 := by
  intro ws
  induction ws with
  | nil => intro s hs; simpa [reap_nil] using hs
  | cons w ws ih =>
    intro s hs
    rw [reap_cons]
    have hn := h1 s w ws hs
    split
    · exact hn
    · split
      · exact hn
      · exact ih _ hn

theorem reap_one_step_idx (w : WaitRes) (s : State) :
    (reap_one w s).step_idx = s.step_idx ∧ (reap_one w s).first_try = s.first_try ∧
      (reap_one w s).exit_signal_received = s.exit_signal_received := by
  unfold reap_one
  simp only [State.emit]
  split <;> simp

theorem reap_step_idx (ws : List WaitRes) (s : State) :
    (reap_zombies_and_subproc ws s).2.1.step_idx = s.step_idx ∧
    (reap_zombies_and_subproc ws s).2.1.first_try = s.first_try ∧
    (reap_zombies_and_subproc ws s).2.1.exit_signal_received = s.exit_signal_received := by
  have := reap_inv (fun t _ => t.step_idx = s.step_idx ∧ t.first_try = s.first_try ∧
      t.exit_signal_received = s.exit_signal_received)
    (fun t w _ ht => by
      obtain ⟨a, b, c⟩ := reap_one_step_idx w t
      exact ⟨a.trans ht.1, b.trans ht.2.1, c.trans ht.2.2⟩) ws s ⟨rfl, rfl, rfl⟩
  exact this

theorem steps_step_idx (cfg : Config) (i : Nat) (ft : Bool) (ws : List WaitRes) (s : State) :
    (steps cfg i ft ws s).2.1.step_idx = s.step_idx := by
  unfold steps
  split
  · rfl
  · rfl
  · simp only [step_broadcast_sigterm, State.emit]
    split <;> rfl
  · simp only [step_check_there_are_no_children]
    split
    · rfl
    · exact (reap_step_idx ws s).1
  · rfl

theorem update_state_loop_succ (cfg : Config) (n : Nat) (ws : List WaitRes) (s : State) :
    update_state_loop cfg (n + 1) ws s =
      match steps cfg s.step_idx s.first_try ws s with
      | (none, s1, ws1) => (none, s1, ws1)
      | (some r, s1, ws1) =>
        if r then update_state_loop cfg n ws1 (step_done s r s1)
        else (some false, step_done s r s1, ws1) := by
  rw [update_state_loop]
  rcases steps cfg s.step_idx s.first_try ws s with ⟨r, s1, ws1⟩
  cases r with
  | none => rfl
  | some r => cases r <;> simp [step_done]

/-- The loop of `update_state` as the source writes it: test
`step_idx < NUM_STEPS`, run the step, stop on false, otherwise advance and
repeat. -/
theorem update_state_unfold (cfg : Config) (ws : List WaitRes) (s : State) :
    update_state cfg ws s =
      if s.step_idx < NUM_STEPS then
        match steps cfg s.step_idx s.first_try ws s with
        | (none, s1, ws1) => (none, s1, ws1)
        | (some r, s1, ws1) =>
          if r then update_state cfg ws1 (step_done s r s1)
          else (some false, step_done s r s1, ws1)
      else (some true, s, ws) := by
  unfold update_state
  by_cases h : s.step_idx < NUM_STEPS
  · obtain ⟨n, hn⟩ : ∃ n, NUM_STEPS - s.step_idx = n + 1 := ⟨NUM_STEPS - s.step_idx - 1, by omega⟩
    rw [hn, update_state_loop_succ, if_pos h]
    have hidx := steps_step_idx cfg s.step_idx s.first_try ws s
    rcases hst : steps cfg s.step_idx s.first_try ws s with ⟨r, s1, ws1⟩
    rw [hst] at hidx
    simp only at hidx
    cases r with
    | none => rfl
    | some r =>
      cases r with
      | false => rfl
      | true =>
        have : NUM_STEPS - (step_done s true s1).step_idx = n := by
          simp [step_done, State.emit, hidx]; omega
        simp [this]
  · have : NUM_STEPS - s.step_idx = 0 := by omega
    rw [this, if_neg h]
    rfl

/-- Any property kept by each completed step evaluation (and by a step that
is left waiting for a `waitpid` result) is kept by `update_state`. -/
theorem update_state_inv (cfg : Config) (I : State → List WaitRes → Prop)
    (hstep : ∀ s ws r s1 ws1, I s ws → s.step_idx < NUM_STEPS →
      steps cfg s.step_idx s.first_try ws s = (some r, s1, ws1) → I (step_done s r s1) ws1)
    (hnone : ∀ s ws s1 ws1, I s ws → s.step_idx < NUM_STEPS →
      steps cfg s.step_idx s.first_try ws s = (none, s1, ws1) → I s1 ws1) :
    ∀ n ws s, NUM_STEPS - s.step_idx = n → I s ws →
      I (update_state cfg ws s).2.1 (update_state cfg ws s).2.2 := by
  intro n
  induction n with
  | zero =>
    intro ws s hn hs
    rw [update_state_unfold, if_neg (by omega)]
    exact hs
  | succ n ih =>
    intro ws s hn hs
    have hlt : s.step_idx < NUM_STEPS := by omega
    rw [update_state_unfold, if_pos hlt]
    have hidx := steps_step_idx cfg s.step_idx s.first_try ws s
    rcases hst : steps cfg s.step_idx s.first_try ws s with ⟨r, s1, ws1⟩
    rw [hst] at hidx
    simp only at hidx
    cases r with
    | none => exact hnone s ws s1 ws1 hs hlt hst
    | some r =>
      have hd := hstep s ws r s1 ws1 hs hlt hst
      cases r with
      | false => exact hd
      | true =>
        simp only [if_true]
        apply ih _ _ _ hd
        simp [step_done, State.emit, hidx]; omega

theorem update_state_result (cfg : Config) :
    ∀ n ws s, NUM_STEPS - s.step_idx = n →
      ((update_state cfg ws s).1 = some true → NUM_STEPS ≤ (update_state cfg ws s).2.1.step_idx) ∧
      ((update_state cfg ws s).1 = some false → (update_state cfg ws s).2.1.step_idx < NUM_STEPS) := by
  intro n
  induction n with
  | zero =>
    intro ws s hn
    rw [update_state_unfold, if_neg (by omega)]
    simp
    omega
  | succ n ih =>
    intro ws s hn
    have hlt : s.step_idx < NUM_STEPS := by omega
    rw [update_state_unfold, if_pos hlt]
    have hidx := steps_step_idx cfg s.step_idx s.first_try ws s
    rcases hst : steps cfg s.step_idx s.first_try ws s with ⟨r, s1, ws1⟩
    rw [hst] at hidx
    simp only at hidx
    cases r with
    | none => simp
    | some r =>
      cases r with
      | false => simp [step_done, State.emit, hidx, hlt]
      | true =>
        simp only [if_true]
        apply ih
        simp [step_done, State.emit, hidx]; omega

theorem handle_signal_sigchld (cfg : Config) (ws : List WaitRes) (s : State) :
    (handle_signal cfg SIGCHLD ws s).2 = (reap_zombies_and_subproc ws s).2 ∧
    (handle_signal cfg SIGCHLD ws s).1 = (reap_zombies_and_subproc ws s).1.map (fun _ => true) := by
  simp only [handle_signal, if_true]
  rcases reap_zombies_and_subproc ws s with ⟨r, s1, ws1⟩
  cases r <;> simp

theorem handle_signal_other (cfg : Config) (signum : Int) (ws : List WaitRes) (s : State)
    (h : signum ≠ SIGCHLD) :
    (handle_signal cfg signum ws s).2 = (route cfg signum s, ws) ∧
    (handle_signal cfg signum ws s).1.isSome = true := by
  simp only [handle_signal, if_neg h, route]
  by_cases h1 : signum = SIGTERM
  · subst h1
    by_cases hp : 0 < s.subproc_pid
    · have hq : ¬ s.subproc_pid ≤ 0 := by omega
      by_cases hg : cfg.create_subproc_group = true <;> simp [forward_signal, hp, hq, hg]
    · simp [forward_signal, hp]
  · by_cases h2 : signum = SIGINT
    · simp only [if_neg h1, if_pos h2]
      split
      · simp
      · split <;> simp
    · simp [h1, h2]

theorem route_step_idx (cfg : Config) (signum : Int) (s : State) :
    (route cfg signum s).step_idx = s.step_idx := by
  simp only [route, forward_signal, State.emit]
  repeat (any_goals split)
  all_goals rfl

theorem handle_signal_step_idx (cfg : Config) (signum : Int) (ws : List WaitRes) (s : State) :
    (handle_signal cfg signum ws s).2.1.step_idx = s.step_idx := by
  by_cases h : signum = SIGCHLD
  · subst h
    rw [(handle_signal_sigchld cfg ws s).1]
    exact (reap_step_idx ws s).1
  · rw [(handle_signal_other cfg signum ws s h).1]
    exact route_step_idx cfg signum s

/-- Any property of (state, pending `waitpid` results, pending `sigwait`
results) kept by handling one dequeued signal while the cursor is inside the
step table is kept by `wait_and_handle_signals`. -/
theorem wait_and_handle_signals_inv (cfg : Config)
    (I : State → List WaitRes → List SigwaitRes → Prop)
    (hH : ∀ signum s ws sg, I s ws (.ok signum :: sg) → s.step_idx < NUM_STEPS →
      I (handle_signal cfg signum ws (s.emit (.sigwait signum))).2.1
        (handle_signal cfg signum ws (s.emit (.sigwait signum))).2.2 sg)
    (hE : ∀ e s ws sg, I s ws (.err e :: sg) → I s ws sg) :
    ∀ sigs ws s, I s ws sigs → s.step_idx < NUM_STEPS →
      I (wait_and_handle_signals cfg sigs ws s).2.1
        (wait_and_handle_signals cfg sigs ws s).2.2.2
        (wait_and_handle_signals cfg sigs ws s).2.2.1 := by
  intro sigs
  induction sigs with
  | nil => intro ws s hs _; simpa [wait_and_handle_signals] using hs
  | cons r rest ih =>
    intro ws s hs hlt
    cases r with
    | err e => simpa [wait_and_handle_signals] using hE e s ws rest hs
    | ok signum =>
      rw [wait_and_handle_signals]
      have hn := hH signum s ws rest hs hlt
      have hidx := handle_signal_step_idx cfg signum ws (s.emit (.sigwait signum))
      rcases hh : handle_signal cfg signum ws (s.emit (.sigwait signum)) with ⟨m, s1, ws1⟩
      rw [hh] at hn hidx
      simp only at hn hidx
      cases m with
      | none => exact hn
      | some m =>
        cases m with
        | true => exact hn
        | false =>
          apply ih _ _ hn
          rw [hidx]
          simpa [State.emit] using hlt

theorem wait_and_handle_signals_length (cfg : Config) :
    ∀ sigs ws s, (wait_and_handle_signals cfg sigs ws s).1 = .handled →
      (wait_and_handle_signals cfg sigs ws s).2.2.1.length < sigs.length := by
  intro sigs
  induction sigs with
  | nil => intro ws s h; simp [wait_and_handle_signals] at h
  | cons r rest ih =>
    intro ws s h
    cases r with
    | err e => simp [wait_and_handle_signals] at h
    | ok signum =>
      rw [wait_and_handle_signals] at h ⊢
      rcases hh : handle_signal cfg signum ws (s.emit (.sigwait signum)) with ⟨m, s1, ws1⟩
      rw [hh] at h
      cases m with
      | none => simp at h
      | some m =>
        cases m with
        | true => simp
        | false =>
          have := ih ws1 s1 h
          simp only [List.length_cons]
          omega

/-- The iteration bound `sigs.length + 1` used by `main` is never reached. -/
theorem main_loop_fuel (cfg : Config) :
    ∀ fuel sigs ws s, sigs.length < fuel → (main_loop cfg fuel sigs ws s).1 ≠ .out_of_fuel := by
  intro fuel
  induction fuel with
  | zero => intro sigs ws s h; omega
  | succ fuel ih =>
    intro sigs ws s h
    rw [main_loop]
    rcases update_state cfg ws s with ⟨r, s1, ws1⟩
    cases r with
    | none => simp
    | some r =>
      cases r with
      | true => simp
      | false =>
        simp only
        have hl := wait_and_handle_signals_length cfg sigs ws1 s1
        rcases hw : wait_and_handle_signals cfg sigs ws1 s1 with ⟨e, s2, sigs2, ws2⟩
        rw [hw] at hl
        cases e with
        | handled =>
          simp only
          apply ih
          have := hl rfl
          simp only at this
          omega
        | exit c => simp
        | blocked => simp

/-- Any property kept by `update_state` and by the handling of one dequeued
signal (while the cursor is inside the step table) holds of the final state of
the main loop; and when the loop ends by `return exitcode`, the cursor is at
the end of the table. -/
theorem main_loop_inv (cfg : Config) (I : State → List WaitRes → List SigwaitRes → Prop)
    (hU : ∀ s ws sg, I s ws sg →
      I (update_state cfg ws s).2.1 (update_state cfg ws s).2.2 sg)
    (hH : ∀ signum s ws sg, I s ws (.ok signum :: sg) → s.step_idx < NUM_STEPS →
      I (handle_signal cfg signum ws (s.emit (.sigwait signum))).2.1
        (handle_signal cfg signum ws (s.emit (.sigwait signum))).2.2 sg)
    (hE : ∀ e s ws sg, I s ws (.err e :: sg) → I s ws sg) :
    ∀ fuel sigs ws s, I s ws sigs →
      (∃ ws1 sg1, I (main_loop cfg fuel sigs ws s).2 ws1 sg1) ∧
      (∀ c, (main_loop cfg fuel sigs ws s).1 = .returned c →
        c = (main_loop cfg fuel sigs ws s).2.exitcode ∧
        NUM_STEPS ≤ (main_loop cfg fuel sigs ws s).2.step_idx) := by
  intro fuel
  induction fuel with
  | zero =>
    intro sigs ws s hs
    exact ⟨⟨ws, sigs, by simpa [main_loop] using hs⟩, by simp [main_loop]⟩
  | succ fuel ih =>
    intro sigs ws s hs
    rw [main_loop]
    have hu := hU s ws sigs hs
    have hr := update_state_result cfg _ ws s rfl
    rcases hus : update_state cfg ws s with ⟨r, s1, ws1⟩
    rw [hus] at hu hr
    simp only at hu hr
    cases r with
    | none => exact ⟨⟨ws1, sigs, hu⟩, by simp⟩
    | some r =>
      cases r with
      | true =>
        refine ⟨⟨ws1, sigs, hu⟩, ?_⟩
        intro c hc
        simp only [Outcome.returned.injEq] at hc
        exact ⟨hc.symm, hr.1 rfl⟩
      | false =>
        simp only
        have hlt := hr.2 rfl
        have hw := wait_and_handle_signals_inv cfg I hH hE sigs ws1 s1 hu hlt
        rcases hws : wait_and_handle_signals cfg sigs ws1 s1 with ⟨e, s2, sigs2, ws2⟩
        rw [hws] at hw
        simp only at hw
        cases e with
        | handled => exact ih sigs2 ws2 s2 hw
        | exit c => exact ⟨⟨ws2, sigs2, hw⟩, by simp⟩
        | blocked => exact ⟨⟨ws2, sigs2, hw⟩, by simp⟩

theorem steps_none (cfg : Config) (s : State) (ws : List WaitRes) (s1 : State)
    (ws1 : List WaitRes) (hlt : s.step_idx < NUM_STEPS)
    (h : steps cfg s.step_idx s.first_try ws s = (none, s1, ws1)) :
    s.step_idx = 3 ∧ reap_zombies_and_subproc ws s = (none, s1, ws1) := by
  have hc : s.step_idx = 0 ∨ s.step_idx = 1 ∨ s.step_idx = 2 ∨ s.step_idx = 3 := by
    unfold NUM_STEPS at hlt; omega
  rcases hc with h0 | h0 | h0 | h0
  · rw [h0] at h; simp [steps] at h
  · rw [h0] at h; simp [steps] at h
  · rw [h0] at h; simp [steps] at h
  · refine ⟨h0, ?_⟩
    rw [h0] at h
    simp only [steps, step_check_there_are_no_children] at h
    split at h
    · simp at h
    · exact h

/-- Reduction of a run invariant to the elementary transitions: one reaper
iteration, the dequeue of SIGCHLD, the dequeue and routing of another signal,
a failed `sigwait`, and one completed step evaluation. -/
theorem run_inv (cfg : Config) (I : State → List WaitRes → List SigwaitRes → Prop)
    (h_reap : ∀ s w ws sg, I s (w :: ws) sg → s.step_idx < NUM_STEPS → I (reap_one w s) ws sg)
    (h_chld : ∀ s ws sg, I s ws (.ok SIGCHLD :: sg) → s.step_idx < NUM_STEPS →
      I (s.emit (.sigwait SIGCHLD)) ws sg)
    (h_route : ∀ s ws signum sg, I s ws (.ok signum :: sg) → s.step_idx < NUM_STEPS →
      signum ≠ SIGCHLD → I (route cfg signum (s.emit (.sigwait signum))) ws sg)
    (h_err : ∀ e s ws sg, I s ws (.err e :: sg) → I s ws sg)
    (h_step : ∀ s ws sg r s1 ws1, I s ws sg → s.step_idx < NUM_STEPS →
      steps cfg s.step_idx s.first_try ws s = (some r, s1, ws1) →
      I (step_done s r s1) ws1 sg) :
    ∀ fuel sigs ws s, I s ws sigs →
      (∃ ws1 sg1, I (main_loop cfg fuel sigs ws s).2 ws1 sg1) ∧
      (∀ c, (main_loop cfg fuel sigs ws s).1 = .returned c →
        c = (main_loop cfg fuel sigs ws s).2.exitcode ∧
        NUM_STEPS ≤ (main_loop cfg fuel sigs ws s).2.step_idx) := by
  have hR : ∀ sg ws s, (I s ws sg ∧ s.step_idx < NUM_STEPS) →
      (I (reap_zombies_and_subproc ws s).2.1 (reap_zombies_and_subproc ws s).2.2 sg ∧
        (reap_zombies_and_subproc ws s).2.1.step_idx < NUM_STEPS) := fun sg =>
    reap_inv (fun t ws => I t ws sg ∧ t.step_idx < NUM_STEPS)
      (fun t w ws ht => ⟨h_reap t w ws sg ht.1 ht.2,
        by rw [(reap_one_step_idx w t).1]; exact ht.2⟩)
  apply main_loop_inv cfg I ?_ ?_ h_err
  · intro s ws sg hs
    apply update_state_inv cfg (fun t ws => I t ws sg)
      (fun s ws r s1 ws1 => h_step s ws sg r s1 ws1) ?_ _ ws s rfl hs
    intro s ws s1 ws1 hs hlt hst
    have h3 := steps_none cfg s ws s1 ws1 hlt hst
    have := (hR sg ws s ⟨hs, hlt⟩).1
    rw [h3.2] at this
    exact this
  · intro signum s ws sg hs hlt
    by_cases hc : signum = SIGCHLD
    · subst hc
      have hs1 := h_chld s ws sg hs hlt
      have hlt1 : (s.emit (.sigwait SIGCHLD)).step_idx < NUM_STEPS := by
        simpa [State.emit] using hlt
      rw [(handle_signal_sigchld cfg ws _).1]
      exact (hR sg ws _ ⟨hs1, hlt1⟩).1
    · rw [(handle_signal_other cfg signum ws _ hc).1]
      exact h_route _ ws signum sg hs hlt hc

/-- A variant of `run_inv` for properties of the state alone that do not
depend on what a step returns: it is enough that they are kept by one reaper
iteration, a dequeue, the routing of a signal, the broadcast of step 3, and
the bookkeeping after a step. -/
theorem run_inv_simple (cfg : Config) (I : State → Prop)
    (h_reap : ∀ s w, I s → I (reap_one w s))
    (h_sig : ∀ s signum, I s → I (s.emit (.sigwait signum)))
    (h_route : ∀ s signum, I s → I (route cfg signum s))
    (h_bcast : ∀ s, I s → I (s.emit (.kill (-1) SIGTERM)))
    (h_done : ∀ s0 s1 r, I s1 → I (step_done s0 r s1)) :
    ∀ fuel sigs ws s, I s → I (main_loop cfg fuel sigs ws s).2 := by
  intro fuel sigs ws s hs
  have := (run_inv cfg (fun t _ _ => I t)
    (fun t w _ _ ht _ => h_reap t w ht)
    (fun t _ _ ht _ => h_sig t _ ht)
    (fun t _ signum _ ht _ _ => h_route _ signum (h_sig t signum ht))
    (fun _ _ _ _ ht => ht) ?_ fuel sigs ws s hs).1
  · obtain ⟨_, _, h⟩ := this
    exact h
  intro s ws _ r s1 ws1 hs hlt hst
  apply h_done s s1 r
  have hc : s.step_idx = 0 ∨ s.step_idx = 1 ∨ s.step_idx = 2 ∨ s.step_idx = 3 := by
    unfold NUM_STEPS at hlt; omega
  rcases hc with h0 | h0 | h0 | h0
  · rw [h0] at hst
    simp only [steps, Prod.mk.injEq] at hst
    obtain ⟨-, rfl, rfl⟩ := hst
    exact hs
  · rw [h0] at hst
    simp only [steps, Prod.mk.injEq] at hst
    obtain ⟨-, rfl, rfl⟩ := hst
    exact hs
  · rw [h0] at hst
    simp only [steps, step_broadcast_sigterm, Prod.mk.injEq] at hst
    obtain ⟨-, rfl, rfl⟩ := hst
    split
    · exact h_bcast s hs
    · exact hs
  · rw [h0] at hst
    simp only [steps, step_check_there_are_no_children] at hst
    split at hst
    · simp only [Prod.mk.injEq] at hst
      obtain ⟨-, rfl, rfl⟩ := hst
      exact hs
    · have := reap_inv (fun t _ => I t) (fun t w _ ht => h_reap t w ht) ws s hs
      rw [hst] at this
      exact this

/-! ## The signal router: classification and forwarding -/

/-- C3: `handle_signal` classifies each dequeued signal as the router table
states.  SIGCHLD runs the reaper (state and remaining `waitpid` results are the
reaper's) and is meaningful, and the latch is untouched; SIGTERM latches
`exit_signal_received` and is meaningful with or without a command; SIGINT
with a command is not meaningful and does not latch; SIGINT without a command
latches and is meaningful when `exit_on_sigint` is set and changes nothing
when it is clear; any other signal is not meaningful and leaves the latch
unchanged. -/
theorem handle_signal_classification (cfg : Config) (signum : Int) (ws : List WaitRes)
    (s : State) :
    (signum = SIGCHLD →
      handle_signal cfg signum ws s =
        ((reap_zombies_and_subproc ws s).1.map (fun _ => true),
          (reap_zombies_and_subproc ws s).2.1, (reap_zombies_and_subproc ws s).2.2)) ∧
    (signum = SIGTERM →
      (handle_signal cfg signum ws s).1 = some true ∧
      (handle_signal cfg signum ws s).2.1.exit_signal_received = true) ∧
    (signum = SIGINT → cfg.subproc_argv.isSome = true →
      (handle_signal cfg signum ws s).1 = some false ∧
      (handle_signal cfg signum ws s).2.1.exit_signal_received = s.exit_signal_received) ∧
    (signum = SIGINT → cfg.subproc_argv = none → cfg.exit_on_sigint = true →
      (handle_signal cfg signum ws s).1 = some true ∧
      (handle_signal cfg signum ws s).2.1.exit_signal_received = true) ∧
    (signum = SIGINT → cfg.subproc_argv = none → cfg.exit_on_sigint = false →
      handle_signal cfg signum ws s = (some false, s, ws)) ∧
    (signum ≠ SIGCHLD → signum ≠ SIGTERM → signum ≠ SIGINT →
      (handle_signal cfg signum ws s).1 = some false ∧
      (handle_signal cfg signum ws s).2.1.exit_signal_received = s.exit_signal_received) := by
  refine ⟨?_, ?_, ?_, ?_, ?_, ?_⟩
  · intro h
    subst h
    simp only [handle_signal, if_true]
    rcases hr : reap_zombies_and_subproc ws s with ⟨r, s1, ws1⟩
    cases r <;> simp
  · intro h
    subst h
    simp [handle_signal]
  · intro h hc
    subst h
    simp [handle_signal, hc, forward_signal, State.emit]
    split <;> rfl
  · intro h hc he
    subst h
    simp [handle_signal, hc, he]
  · intro h hc he
    subst h
    simp [handle_signal, hc, he]
  · intro h1 h2 h3
    simp [handle_signal, h1, h2, h3, forward_signal, State.emit]
    split <;> rfl

/-- The reaper only appends `waitpid` and `set_exitcode` events. -/
theorem reap_no_send (ws : List WaitRes) (s : State) :
    ∃ ev, (reap_zombies_and_subproc ws s).2.1.trace = s.trace ++ ev ∧
      ∀ e ∈ ev, e.is_send = false := by
  apply reap_inv (fun t _ => ∃ ev, t.trace = s.trace ++ ev ∧ ∀ e ∈ ev, e.is_send = false)
  · rintro t w ws1 ⟨ev, h1, h2⟩
    unfold reap_one
    simp only [State.emit]
    split
    · refine ⟨ev ++ [.waitpid w.pid w.status w.errno,
        .set_exitcode w.pid (exitcode_of_status w.status)], by simp [h1], ?_⟩
      intro e he
      simp only [List.mem_append, List.mem_cons, List.mem_singleton, List.not_mem_nil,
        or_false] at he
      rcases he with he | he | he
      · exact h2 e he
      · subst he; rfl
      · subst he; rfl
    · refine ⟨ev ++ [.waitpid w.pid w.status w.errno], by simp [h1], ?_⟩
      intro e he
      simp only [List.mem_append, List.mem_singleton] at he
      rcases he with he | he
      · exact h2 e he
      · subst he; rfl
  · exact ⟨[], by simp, by simp⟩

/-- C4: when a command is configured and the primary child (pid
`s.subproc_pid`, positive) has not been reaped, `handle_signal` issues exactly
one send for every signal other than SIGCHLD: `killpg(pid, SIGTERM)` if the
signal is SIGTERM and `create_subproc_group` is set, otherwise
`kill(pid, signum)` with the same signal number (so SIGINT goes to the
process even with `create_subproc_group`); for SIGCHLD no send is issued. -/
theorem handle_signal_forwards (cfg : Config) (signum : Int) (ws : List WaitRes) (s : State)
    (hcmd : cfg.subproc_argv.isSome = true) (hpid : 0 < s.subproc_pid) :
    (signum ≠ SIGCHLD →
      (handle_signal cfg signum ws s).2.1.trace =
        s.trace ++ [if signum = SIGTERM ∧ cfg.create_subproc_group = true
                    then Event.killpg s.subproc_pid SIGTERM
                    else Event.kill s.subproc_pid signum]) ∧
    (signum = SIGCHLD →
      ∃ ev, (handle_signal cfg signum ws s).2.1.trace = s.trace ++ ev ∧
        ∀ e ∈ ev, e.is_send = false) := by
  have hq : ¬ s.subproc_pid ≤ 0 := by omega
  constructor
  · intro hne
    rw [(handle_signal_other cfg signum ws s hne).1]
    simp only [route]
    by_cases h1 : signum = SIGTERM
    · subst h1
      by_cases hg : cfg.create_subproc_group = true <;> simp [hpid, hg, State.emit]
    · by_cases h2 : signum = SIGINT
      · subst h2
        simp [hcmd, forward_signal, hq, State.emit]
      · simp [h1, h2, forward_signal, hq, State.emit]
  · intro h
    subst h
    rw [(handle_signal_sigchld cfg ws s).1]
    exact reap_no_send ws s

theorem handle_signal_forwards_witness :
    ((handle_signal { Config.default with subproc_argv := some ["sh"], create_subproc_group := true }
        SIGINT [] { State.initial with subproc_pid := 7 }).2.1.trace =
      [Event.kill 7 SIGINT]) := by
  have h := (handle_signal_forwards
    { Config.default with subproc_argv := some ["sh"], create_subproc_group := true }
    SIGINT [] { State.initial with subproc_pid := 7 } rfl (by decide)).1 (by decide)
  simpa [State.initial] using h

/-! ## The history of a whole run -/

theorem after_first_reap_snoc (tr : List Event) (e : Event) :
    after_first_reap (tr ++ [e]) =
      if tr.any Event.is_set_exitcode then after_first_reap tr ++ [e] else [] := by
  induction tr with
  | nil => cases e <;> simp [after_first_reap, Event.is_set_exitcode]
  | cons x tr ih =>
    by_cases hx : x.is_set_exitcode = true
    · simp [after_first_reap, hx]
    · simp [after_first_reap, hx, ih]

theorem filter_set_exitcode_le_one (tr : List Event)
    (h : ∀ e ∈ after_first_reap tr, e.is_set_exitcode = false) :
    (tr.filter Event.is_set_exitcode).length ≤ 1 := by
  induction tr with
  | nil => simp
  | cons x tr ih =>
    by_cases hx : x.is_set_exitcode = true
    · simp only [after_first_reap, hx, if_true] at h
      have : tr.filter Event.is_set_exitcode = [] := by
        rw [List.filter_eq_nil_iff]
        intro e he
        simp [h e he]
      simp [List.filter_cons, hx, this]
    · simp only [after_first_reap, hx] at h
      simpa [List.filter_cons, hx] using ih h

/-- Appending an event that is neither an assignment nor a forwarded signal
keeps the history invariant. -/
theorem TraceInv.emit_other (p : Int) (t : State) (e : Event) (h : TraceInv p t)
    (h1 : e.is_set_exitcode = false) (h2 : e.is_send = true → e = .kill (-1) SIGTERM) :
    TraceInv p (t.emit e) := by
  refine ⟨h.pid, ?_, ?_, ?_, ?_⟩
  · simpa [State.emit, h1] using h.cleared
  · intro x hx
    simp only [State.emit, after_first_reap_snoc] at hx
    split at hx
    · simp only [List.mem_append, List.mem_singleton] at hx
      rcases hx with hx | hx
      · exact h.after x hx
      · subst hx; exact ⟨h1, h2⟩
    · simp at hx
  · intro pid code hm
    simp only [State.emit, List.mem_append, List.mem_singleton] at hm
    rcases hm with hm | hm
    · exact h.assigned pid code hm
    · subst hm; simp [Event.is_set_exitcode] at h1
  · intro x hx hs
    simp only [State.emit, List.mem_append, List.mem_singleton] at hx
    rcases hx with hx | hx
    · exact h.sends x hx hs
    · subst hx; exact Or.inl (h2 hs)

/-- Appending a signal sent to the live primary child keeps the history
invariant. -/
theorem TraceInv.emit_forward (p : Int) (t : State) (e : Event) (h : TraceInv p t)
    (hlive : 0 < t.subproc_pid)
    (he : ∃ sig, e = .kill t.subproc_pid sig ∨ e = .killpg t.subproc_pid sig) :
    TraceInv p (t.emit e) := by
  have hp : t.subproc_pid = p := by
    rcases h.pid with h0 | h0
    · exact h0
    · omega
  have hnone : t.trace.any Event.is_set_exitcode = false := by
    by_contra hc
    have := h.cleared (by simpa using hc)
    omega
  have hset : e.is_set_exitcode = false := by
    obtain ⟨sig, rfl | rfl⟩ := he <;> rfl
  refine ⟨h.pid, ?_, ?_, ?_, ?_⟩
  · intro hc
    simp only [State.emit, List.any_append, hnone, List.any_cons, hset, List.any_nil,
      Bool.or_self] at hc
    exact absurd hc (by simp)
  · intro x hx
    simp [State.emit, after_first_reap_snoc, hnone] at hx
  · intro pid code hm
    simp only [State.emit, List.mem_append, List.mem_singleton] at hm
    rcases hm with hm | hm
    · exact h.assigned pid code hm
    · subst hm; simp [Event.is_set_exitcode] at hset
  · intro x hx hs
    simp only [State.emit, List.mem_append, List.mem_singleton] at hx
    rcases hx with hx | hx
    · exact h.sends x hx hs
    · subst hx
      right
      rw [← hp]
      exact ⟨hlive, he⟩

theorem TraceInv.reap_one (p : Int) (t : State) (w : WaitRes) (h : TraceInv p t) :
    TraceInv p (reap_one w t) := by
  have hw := TraceInv.emit_other p t (.waitpid w.pid w.status w.errno) h rfl (by simp [Event.is_send])
  by_cases hc : 0 < w.pid ∧ w.pid = t.subproc_pid
  · simp only [DockerContainerInit.reap_one, if_pos hc]
    have hpid : w.pid = t.subproc_pid := hc.2
    have hp : t.subproc_pid = p := by
      rcases h.pid with h0 | h0
      · exact h0
      · omega
    have hnone : t.trace.any Event.is_set_exitcode = false := by
      by_contra hx
      have := h.cleared (by simpa using hx)
      omega
    refine ⟨Or.inr rfl, fun _ => rfl, ?_, ?_, ?_⟩
    · intro x hx
      simp only [State.emit] at hx
      rw [after_first_reap_snoc] at hx
      simp [hnone, Event.is_set_exitcode] at hx
    · intro pid code hm
      simp only [State.emit, List.mem_append, List.mem_singleton] at hm
      rcases hm with (hm | hm) | hm
      · exact h.assigned pid code hm
      · simp at hm
      · simp only [Event.set_exitcode.injEq] at hm
        omega
    · intro x hx hs
      simp only [State.emit, List.mem_append, List.mem_singleton] at hx
      rcases hx with (hx | hx) | hx
      · exact h.sends x hx hs
      · subst hx; simp [Event.is_send] at hs
      · subst hx; simp [Event.is_send] at hs
  · simp only [DockerContainerInit.reap_one, if_neg hc]
    exact hw

theorem TraceInv.route (cfg : Config) (p : Int) (t : State) (signum : Int) (h : TraceInv p t) :
    TraceInv p (route cfg signum t) := by
  have hfwd : ∀ sig, TraceInv p (forward_signal sig t) := by
    intro sig
    unfold forward_signal
    split
    · exact h
    · exact TraceInv.emit_forward p t _ h (by omega) ⟨sig, Or.inl rfl⟩
  have hlatch : ∀ u : State, TraceInv p u → TraceInv p { u with exit_signal_received := true } :=
    fun u hu => ⟨hu.pid, hu.cleared, hu.after, hu.assigned, hu.sends⟩
  unfold DockerContainerInit.route
  split
  · apply hlatch
    split
    · split
      · exact TraceInv.emit_forward p t _ h (by omega) ⟨SIGTERM, Or.inr rfl⟩
      · exact TraceInv.emit_forward p t _ h (by omega) ⟨signum, Or.inl rfl⟩
    · exact h
  · split
    · split
      · exact hfwd _
      · split
        · exact hlatch t h
        · exact h
    · exact hfwd _

theorem TraceInv.step_done (p : Int) (s0 s1 : State) (r : Bool) (h : TraceInv p s1) :
    TraceInv p (step_done s0 r s1) := by
  have h1 : TraceInv p { s1 with first_try := false } :=
    ⟨h.pid, h.cleared, h.after, h.assigned, h.sends⟩
  have h2 := TraceInv.emit_other p _ (.step s0.step_idx s0.first_try r) h1 rfl
    (by simp [Event.is_send])
  unfold DockerContainerInit.step_done
  split
  · exact ⟨h2.pid, h2.cleared, h2.after, h2.assigned, h2.sends⟩
  · exact h2

/-- The history invariant holds along every run of the main loop. -/
theorem main_loop_trace_inv (cfg : Config) (p : Int) (fuel : Nat) (sigs : List SigwaitRes)
    (ws : List WaitRes) (s : State) (h : TraceInv p s) :
    TraceInv p (main_loop cfg fuel sigs ws s).2 := by
  exact run_inv_simple cfg (TraceInv p)
    (fun t w ht => TraceInv.reap_one p t w ht)
    (fun t signum ht => TraceInv.emit_other p t _ ht rfl (by simp [Event.is_send]))
    (fun t signum ht => TraceInv.route cfg p t signum ht)
    (fun t ht => TraceInv.emit_other p t _ ht rfl (fun _ => rfl))
    (fun s0 s1 r h1 => TraceInv.step_done p s0 s1 r h1)
    fuel sigs ws s h

theorem spawn_parent (cfg : Config) (env : Env) (m : Masks) (argv : List String) (pid : Int)
    (h : spawn_subproc cfg env m argv = .parent pid) : pid = env.fork_ret ∧ 0 < env.fork_ret := by
  unfold spawn_subproc at h
  split_ifs at h with h1 h2
  simp only [Spawn.parent.injEq] at h
  exact ⟨h.symm, h2⟩

/-- The state in which the supervisor enters the main loop. -/
theorem init_ok (cfg : Config) (env : Env) (m : Masks) (s : State)
    (h : init cfg env = .ok m s) :
    s = { State.initial with subproc_pid := primary_pid cfg env } ∧
    (cfg.subproc_argv.isSome = true → 0 < env.fork_ret) := by
  unfold init at h
  split at h
  · simp at h
  · split at h
    · simp at h
    · rename_i m1 hm
      cases hc : cfg.subproc_argv with
      | none =>
        rw [hc] at h
        simp only [Init.ok.injEq] at h
        simp [primary_pid, hc, ← h.2, State.initial]
      | some argv =>
        rw [hc] at h
        simp only at h
        cases hsp : spawn_subproc cfg env m1 argv with
        | failed => rw [hsp] at h; simp at h
        | child_exit c => rw [hsp] at h; simp at h
        | child_exec a b c => rw [hsp] at h; simp at h
        | parent pid =>
          rw [hsp] at h
          simp only [Init.ok.injEq] at h
          obtain ⟨h1, h2⟩ := spawn_parent cfg env m1 argv pid hsp
          simp [primary_pid, hc, ← h.2, h1, h2]

theorem main_trace_inv (cfg : Config) (env : Env) (sigs : List SigwaitRes)
    (waits : List WaitRes) : TraceInv (primary_pid cfg env) (main cfg env sigs waits).2 := by
  have h0 : ∀ q, TraceInv (primary_pid cfg env) { State.initial with subproc_pid := q } →
      TraceInv (primary_pid cfg env) State.initial := fun q _ =>
    ⟨Or.inr rfl, fun _ => rfl, by simp [State.initial, after_first_reap],
      by simp [State.initial], by simp [State.initial]⟩
  have hi : TraceInv (primary_pid cfg env)
      { State.initial with subproc_pid := primary_pid cfg env } :=
    ⟨Or.inl rfl, by simp [State.initial], by simp [State.initial, after_first_reap],
      by simp [State.initial], by simp [State.initial]⟩
  unfold main
  cases hinit : init cfg env with
  | failed => exact h0 _ hi
  | child_exit c => exact h0 _ hi
  | child_exec a b c => exact h0 _ hi
  | ok m s =>
    simp only
    apply main_loop_trace_inv
    rw [(init_ok cfg env m s hinit).1]
    exact hi

/-- C2: over a whole run `exitcode` is assigned at most once; an assignment
happens only with a command configured, on the reap whose returned pid is the
pid `fork` gave for the primary child; nothing after the first assignment is
an assignment; and once `subproc_pid` is cleared, an invocation of the reaper
leaves `exitcode` as it is, whatever `waitpid` returns. -/
theorem exitcode_assigned_at_most_once (cfg : Config) (env : Env) (sigs : List SigwaitRes)
    (waits : List WaitRes) :
    (((main cfg env sigs waits).2.trace.filter Event.is_set_exitcode).length ≤ 1) ∧
    (∀ pid code, Event.set_exitcode pid code ∈ (main cfg env sigs waits).2.trace →
      cfg.subproc_argv.isSome = true ∧ pid = env.fork_ret ∧ 0 < pid) ∧
    (∀ e ∈ after_first_reap (main cfg env sigs waits).2.trace, e.is_set_exitcode = false) ∧
    (∀ (s : State) (ws : List WaitRes), s.subproc_pid ≤ 0 →
      (reap_zombies_and_subproc ws s).2.1.exitcode = s.exitcode ∧
      ∃ ev, (reap_zombies_and_subproc ws s).2.1.trace = s.trace ++ ev ∧
        ∀ e ∈ ev, e.is_set_exitcode = false) := by
  have hinv := main_trace_inv cfg env sigs waits
  refine ⟨?_, ?_, ?_, ?_⟩
  · exact filter_set_exitcode_le_one _ (fun e he => (hinv.after e he).1)
  · intro pid code hm
    obtain ⟨h1, h2⟩ := hinv.assigned pid code hm
    unfold primary_pid at h1 h2
    split at h1
    · rename_i hc
      exact ⟨hc, h1, by omega⟩
    · rw [if_neg (by assumption)] at h2
      omega
  · exact fun e he => (hinv.after e he).1
  · intro s ws hs
    have := reap_inv (fun t _ => t.subproc_pid ≤ 0 ∧ t.exitcode = s.exitcode ∧
        ∃ ev, t.trace = s.trace ++ ev ∧ ∀ e ∈ ev, e.is_set_exitcode = false)
      (fun t w _ ht => by
        obtain ⟨h1, h2, ev, h3, h4⟩ := ht
        have hc : ¬ (0 < w.pid ∧ w.pid = t.subproc_pid) := by omega
        simp only [reap_one, if_neg hc, State.emit]
        refine ⟨h1, h2, ev ++ [.waitpid w.pid w.status w.errno], by simp [h3], ?_⟩
        intro e he
        simp only [List.mem_append, List.mem_singleton] at he
        rcases he with he | he
        · exact h4 e he
        · subst he; rfl) ws s ⟨hs, rfl, [], by simp, by simp⟩
    exact ⟨this.2.1, this.2.2⟩

theorem route_trace (cfg : Config) (signum : Int) (s : State) :
    (route cfg signum s).trace = s.trace ∨
    (0 < s.subproc_pid ∧
      ((route cfg signum s).trace = s.trace ++ [.kill s.subproc_pid signum] ∨
       (route cfg signum s).trace = s.trace ++ [.killpg s.subproc_pid SIGTERM])) := by
  by_cases hp : 0 < s.subproc_pid
  · have hq : ¬ s.subproc_pid ≤ 0 := by omega
    simp only [route, forward_signal, hq, hp, if_true, if_false, gt_iff_lt]
    repeat (any_goals split)
    all_goals simp [State.emit, hp]
  · have hq : s.subproc_pid ≤ 0 := by omega
    left
    simp only [route, forward_signal, hq, hp, if_true, if_false, gt_iff_lt]
    repeat (any_goals split)
    all_goals rfl

/-- C10: the signal router never sends to a non-positive pid.  Every `kill`
and `killpg` issued by `handle_signal` has a positive target, and when
`subproc_pid` is none (not positive) `handle_signal` issues no send for any
signal.  Over a whole run, the only send after the primary child's reap (the
assignment of `exitcode`) is the broadcast `kill(-1, SIGTERM)` of the
shutdown sequence, and without a command that is the only send at all. -/
theorem router_never_sends_to_nonpositive_pid (cfg : Config) :
    (∀ signum ws s, ∃ ev, (handle_signal cfg signum ws s).2.1.trace = s.trace ++ ev ∧
      (∀ pid sig, (Event.kill pid sig ∈ ev ∨ Event.killpg pid sig ∈ ev) → 0 < pid) ∧
      (s.subproc_pid ≤ 0 → ∀ e ∈ ev, e.is_send = false)) ∧
    (∀ env sigs waits, ∀ e ∈ after_first_reap (main cfg env sigs waits).2.trace,
      e.is_send = true → e = .kill (-1) SIGTERM) ∧
    (∀ env sigs waits, cfg.subproc_argv = none →
      ∀ e ∈ (main cfg env sigs waits).2.trace, e.is_send = true → e = .kill (-1) SIGTERM) := by
  refine ⟨?_, ?_, ?_⟩
  · intro signum ws s
    by_cases hc : signum = SIGCHLD
    · subst hc
      rw [(handle_signal_sigchld cfg ws s).1]
      obtain ⟨ev, h1, h2⟩ := reap_no_send ws s
      refine ⟨ev, h1, ?_, fun _ => h2⟩
      rintro pid sig (h | h)
      · simpa [Event.is_send] using h2 _ h
      · simpa [Event.is_send] using h2 _ h
    · rw [(handle_signal_other cfg signum ws s hc).1]
      rcases route_trace cfg signum s with h | ⟨hp, h | h⟩
      · exact ⟨[], by simp [h], by simp, by simp⟩
      · refine ⟨_, h, ?_, fun hq => by omega⟩
        rintro pid sig (hm | hm)
        · simp only [List.mem_singleton, Event.kill.injEq] at hm
          omega
        · simp at hm
      · refine ⟨_, h, ?_, fun hq => by omega⟩
        rintro pid sig (hm | hm)
        · simp at hm
        · simp only [List.mem_singleton, Event.killpg.injEq] at hm
          omega
  · intro env sigs waits e he
    exact ((main_trace_inv cfg env sigs waits).after e he).2
  · intro env sigs waits hc e he hs
    rcases (main_trace_inv cfg env sigs waits).sends e he hs with h | ⟨h, -⟩
    · exact h
    · simp [primary_pid, hc] at h

/-! ## The signal mask of the child -/

theorem setup_sigmask_some (cfg : Config) (env : Env) (m : Masks)
    (h : setup_sigmask cfg env = some m) :
    m.orig_sigmask = env.procmask ∧ SIGTTOU ∈ m.procmask := by
  unfold setup_sigmask at h
  simp only at h
  split_ifs at h
  simp only [Option.some.injEq] at h
  subst h
  simp [sigprocmask]

/-- C8 as stated fails: started with an empty mask, the child of
`docker-container-init -g sh` calls `tcsetpgrp` with SIGTTOU blocked, but the
`sigprocmask(SIG_SETMASK, &orig_sigmask, NULL)` that follows replaces the whole
mask, so at `execvp` the mask is empty and SIGTTOU is not blocked. -/
theorem sigttou_unblocked_at_exec :
    init cfg_group env_child = .child_exec ["sh"] ∅
        (some (sigprocmask .SIG_BLOCK {SIGTTOU}
          (sigprocmask .SIG_BLOCK (used_sigmask_of cfg_group) ∅))) ∧
      SIGTTOU ∈ sigprocmask .SIG_BLOCK {SIGTTOU}
          (sigprocmask .SIG_BLOCK (used_sigmask_of cfg_group) ∅) ∧
      SIGTTOU ∉ (∅ : SigSet) := by
  refine ⟨?_, ?_, ?_⟩
  · simp [init, cfg_group, env_child, Config.default, setup_sigmask, spawn_subproc, sigprocmask]
  · simp [sigprocmask]
  · simp

/-- C8, amended: whenever the child reaches `execvp`, its signal mask is
exactly the mask the supervisor had on entry (`orig_sigmask`), so SIGTTOU is
blocked at exec if and only if it was blocked originally; the separate SIGTTOU
block is in force only until the restore, in particular during `tcsetpgrp`. -/
theorem child_mask_at_exec (cfg : Config) (env : Env) (argv : List String) (mask : SigSet)
    (tc : Option SigSet) (h : init cfg env = .child_exec argv mask tc) :
    mask = env.procmask ∧ (SIGTTOU ∈ mask ↔ SIGTTOU ∈ env.procmask) ∧
    (∀ tm, tc = some tm → SIGTTOU ∈ tm) ∧
    (cfg.create_subproc_group = true → tc.isSome = true) := by
  unfold init at h
  split at h
  · simp at h
  · split at h
    · simp at h
    · rename_i m hm
      obtain ⟨horig, httou⟩ := setup_sigmask_some cfg env m hm
      split at h
      · simp at h
      · rename_i argv1 hc
        cases hsp : spawn_subproc cfg env m argv1 with
        | failed => rw [hsp] at h; simp at h
        | child_exit c => rw [hsp] at h; simp at h
        | parent pid => rw [hsp] at h; simp at h
        | child_exec a b c =>
          rw [hsp] at h
          simp only [Init.child_exec.injEq] at h
          obtain ⟨rfl, rfl, rfl⟩ := h
          unfold spawn_subproc at hsp
          split_ifs at hsp
          · simp only [Spawn.child_exec.injEq] at hsp
            obtain ⟨-, rfl, rfl⟩ := hsp
            simp [sigprocmask, horig, httou]
          · simp only [Spawn.child_exec.injEq] at hsp
            obtain ⟨-, rfl, rfl⟩ := hsp
            simp_all [sigprocmask]

theorem child_mask_at_exec_witness :
    (∅ : SigSet) = env_child.procmask ∧
    (SIGTTOU ∈ (∅ : SigSet) ↔ SIGTTOU ∈ env_child.procmask) ∧
    (∀ tm, some (sigprocmask .SIG_BLOCK {SIGTTOU}
        (sigprocmask .SIG_BLOCK (used_sigmask_of cfg_group) ∅)) = some tm → SIGTTOU ∈ tm) ∧
    (cfg_group.create_subproc_group = true →
      (some (sigprocmask .SIG_BLOCK {SIGTTOU}
        (sigprocmask .SIG_BLOCK (used_sigmask_of cfg_group) ∅))).isSome = true) :=
  child_mask_at_exec cfg_group env_child ["sh"] ∅ _
    (by simp [init, cfg_group, env_child, Config.default, setup_sigmask, spawn_subproc,
      sigprocmask])

/-! ## The `-B` flag without `-W` -/

theorem steps_broadcast_irrelevant (cfg : Config) (b : Bool) (h : cfg.wait_for_children = false)
    (i : Nat) (ft : Bool) (ws : List WaitRes) (s : State) :
    steps { cfg with broadcast_sigterm_before_wait := b } i ft ws s = steps cfg i ft ws s := by
  unfold steps
  split
  · rfl
  · rfl
  · simp [step_broadcast_sigterm, h]
  · rfl
  · rfl

theorem update_state_broadcast_irrelevant (cfg : Config) (b : Bool)
    (h : cfg.wait_for_children = false) (ws : List WaitRes) (s : State) :
    update_state { cfg with broadcast_sigterm_before_wait := b } ws s = update_state cfg ws s := by
  unfold update_state
  generalize NUM_STEPS - s.step_idx = n
  induction n generalizing ws s with
  | zero => rfl
  | succ n ih =>
    rw [update_state_loop_succ, update_state_loop_succ, steps_broadcast_irrelevant cfg b h]
    rcases steps cfg s.step_idx s.first_try ws s with ⟨r, s1, ws1⟩
    cases r with
    | none => rfl
    | some r =>
      cases r with
      | false => rfl
      | true => simp only [if_true]; exact ih ws1 _

theorem wait_and_handle_signals_broadcast_irrelevant (cfg : Config) (b : Bool)
    (sigs : List SigwaitRes) (ws : List WaitRes) (s : State) :
    wait_and_handle_signals { cfg with broadcast_sigterm_before_wait := b } sigs ws s =
      wait_and_handle_signals cfg sigs ws s := by
  induction sigs generalizing ws s with
  | nil => rfl
  | cons r rest ih =>
    cases r with
    | err e => rfl
    | ok signum =>
      rw [wait_and_handle_signals, wait_and_handle_signals]
      have : handle_signal { cfg with broadcast_sigterm_before_wait := b } signum ws
          (s.emit (.sigwait signum)) = handle_signal cfg signum ws (s.emit (.sigwait signum)) := rfl
      rw [this]
      rcases handle_signal cfg signum ws (s.emit (.sigwait signum)) with ⟨m, s1, ws1⟩
      cases m with
      | none => rfl
      | some m =>
        cases m with
        | true => rfl
        | false => exact ih ws1 s1

theorem main_loop_broadcast_irrelevant (cfg : Config) (b : Bool)
    (h : cfg.wait_for_children = false) (fuel : Nat) (sigs : List SigwaitRes)
    (ws : List WaitRes) (s : State) :
    main_loop { cfg with broadcast_sigterm_before_wait := b } fuel sigs ws s =
      main_loop cfg fuel sigs ws s := by
  induction fuel generalizing sigs ws s with
  | zero => rfl
  | succ fuel ih =>
    rw [main_loop, main_loop, update_state_broadcast_irrelevant cfg b h]
    rcases update_state cfg ws s with ⟨r, s1, ws1⟩
    cases r with
    | none => rfl
    | some r =>
      cases r with
      | true => rfl
      | false =>
        simp only
        rw [wait_and_handle_signals_broadcast_irrelevant]
        rcases wait_and_handle_signals cfg sigs ws1 s1 with ⟨e, s2, sigs2, ws2⟩
        cases e with
        | handled => exact ih sigs2 ws2 s2
        | exit c => rfl
        | blocked => rfl

/-- C9: with `wait_for_children` clear, `broadcast_sigterm_before_wait` has no
effect: two runs whose configurations differ only in that flag and that
receive the same `init` answers, dequeued signals and `waitpid` results end
the same way, with the same exit code and the same history (every send and
every step outcome included). -/
theorem broadcast_flag_ignored_without_wait (cfg : Config) (b1 b2 : Bool) (env : Env)
    (sigs : List SigwaitRes) (waits : List WaitRes) (h : cfg.wait_for_children = false) :
    main { cfg with broadcast_sigterm_before_wait := b1 } env sigs waits =
      main { cfg with broadcast_sigterm_before_wait := b2 } env sigs waits := by
  have key : ∀ b, main { cfg with broadcast_sigterm_before_wait := b } env sigs waits =
      main cfg env sigs waits := by
    intro b
    unfold main
    have hi : init { cfg with broadcast_sigterm_before_wait := b } env = init cfg env := rfl
    rw [hi]
    cases init cfg env with
    | failed => rfl
    | child_exit c => rfl
    | child_exec a m t => rfl
    | ok m s => exact main_loop_broadcast_irrelevant cfg b h _ sigs waits s
  rw [key b1, key b2]

theorem broadcast_flag_ignored_without_wait_witness :
    main { ({ Config.default with wait_for_children := false } : Config) with
        broadcast_sigterm_before_wait := true } env0 [.ok SIGTERM] [] =
      main { ({ Config.default with wait_for_children := false } : Config) with
        broadcast_sigterm_before_wait := false } env0 [.ok SIGTERM] [] :=
  broadcast_flag_ignored_without_wait { Config.default with wait_for_children := false }
    true false env0 [.ok SIGTERM] [] rfl

/-! ## The exit code -/

theorem route_fields (cfg : Config) (signum : Int) (s : State) :
    (route cfg signum s).subproc_pid = s.subproc_pid ∧
    (route cfg signum s).exitcode = s.exitcode := by
  simp only [route, forward_signal, State.emit]
  repeat (any_goals split)
  all_goals exact ⟨rfl, rfl⟩

theorem reap_cleared (ws : List WaitRes) (s : State) (h : s.subproc_pid ≤ 0) :
    (reap_zombies_and_subproc ws s).2.1.subproc_pid = s.subproc_pid ∧
    (reap_zombies_and_subproc ws s).2.1.exitcode = s.exitcode := by
  have := reap_inv (fun t _ => t.subproc_pid = s.subproc_pid ∧ t.exitcode = s.exitcode)
    (fun t w _ ht => by
      have hc : ¬ (0 < w.pid ∧ w.pid = t.subproc_pid) := by omega
      simp only [reap_one, if_neg hc, State.emit]
      exact ht) ws s ⟨rfl, rfl⟩
  exact this

theorem steps_cleared (cfg : Config) (i : Nat) (ft : Bool) (ws : List WaitRes) (s : State)
    (h : s.subproc_pid ≤ 0) :
    (steps cfg i ft ws s).2.1.subproc_pid = s.subproc_pid ∧
    (steps cfg i ft ws s).2.1.exitcode = s.exitcode := by
  unfold steps
  split
  · exact ⟨rfl, rfl⟩
  · exact ⟨rfl, rfl⟩
  · simp only [step_broadcast_sigterm, State.emit]
    split <;> exact ⟨rfl, rfl⟩
  · simp only [step_check_there_are_no_children]
    split
    · exact ⟨rfl, rfl⟩
    · exact reap_cleared ws s h
  · exact ⟨rfl, rfl⟩

theorem step_done_fields (s0 s1 : State) (r : Bool) :
    (step_done s0 r s1).subproc_pid = s1.subproc_pid ∧
    (step_done s0 r s1).exitcode = s1.exitcode ∧
    (step_done s0 r s1).exit_signal_received = s1.exit_signal_received ∧
    (step_done s0 r s1).step_idx = (if r then s1.step_idx + 1 else s1.step_idx) ∧
    (step_done s0 r s1).trace = s1.trace ++ [.step s0.step_idx s0.first_try r] := by
  cases r <;> simp [step_done, State.emit]

theorem main_loop_exit_inv (cfg : Config) (p : Int) (waits : List WaitRes)
    (hcmd : cfg.subproc_argv.isSome = true) (hp : 0 < p)
    (fuel : Nat) (sigs : List SigwaitRes) (ws : List WaitRes) (s : State)
    (h : ExitInv p waits s ws) :
    (∃ ws1, ExitInv p waits (main_loop cfg fuel sigs ws s).2 ws1) ∧
    (∀ c, (main_loop cfg fuel sigs ws s).1 = .returned c →
      c = (main_loop cfg fuel sigs ws s).2.exitcode ∧
      NUM_STEPS ≤ (main_loop cfg fuel sigs ws s).2.step_idx) := by
  have := run_inv cfg (fun t ws _ => ExitInv p waits t ws) ?_ ?_ ?_ ?_ ?_ fuel sigs ws s h
  · obtain ⟨⟨ws1, _, h1⟩, h2⟩ := this
    exact ⟨⟨ws1, h1⟩, h2⟩
  · intro t w ws _ ht _
    rcases ht with ⟨h1, h2, h3⟩ | ⟨h1, w0, h2, h3⟩
    · by_cases hc : 0 < w.pid ∧ w.pid = t.subproc_pid
      · right
        simp only [reap_one, if_pos hc, State.emit, true_and]
        refine ⟨w, ?_, rfl⟩
        rw [← h3]
        simp [first_reap, List.find?_cons, hc.2, h1]
      · left
        simp only [reap_one, if_neg hc, State.emit]
        refine ⟨h1, h2, ?_⟩
        rw [← h3]
        have : ¬ w.pid = p := by
          intro hw
          apply hc
          omega
        simp [first_reap, List.find?_cons, this]
    · right
      have hc : ¬ (0 < w.pid ∧ w.pid = t.subproc_pid) := by omega
      simp only [reap_one, if_neg hc, State.emit]
      exact ⟨h1, w0, h2, h3⟩
  · intro t ws _ ht _
    exact ht
  · intro t ws signum _ ht _ _
    have hf := route_fields cfg signum (t.emit (.sigwait signum))
    have hi := route_step_idx cfg signum (t.emit (.sigwait signum))
    simp only [State.emit] at hf hi
    rcases ht with ⟨h1, h2, h3⟩ | ⟨h1, w0, h2, h3⟩
    · left
      exact ⟨by simp only [State.emit]; rw [hf.1]; exact h1,
        by simp only [State.emit]; rw [hi]; exact h2, h3⟩
    · right
      exact ⟨by simp only [State.emit]; rw [hf.1]; exact h1, w0, h2,
        by simp only [State.emit]; rw [hf.2]; exact h3⟩
  · intro e t ws _ ht
    exact ht
  · intro t ws _ r s1 ws1 ht hlt hst
    have hd := step_done_fields t s1 r
    rcases ht with ⟨h1, h2, h3⟩ | ⟨h1, w0, h2, h3⟩
    · left
      rw [h2] at hst
      have hnone : cfg.subproc_argv.isNone = false := by
        cases hc : cfg.subproc_argv with
        | none => simp [hc] at hcmd
        | some a => rfl
      have hq : ¬ t.subproc_pid ≤ 0 := by omega
      simp only [steps, step_check_subproc_finished, hnone, hq, decide_False, Prod.mk.injEq,
        Option.some.injEq] at hst
      obtain ⟨hr, rfl, rfl⟩ := hst
      simp at hr
      subst hr
      simp only [step_done, State.emit]
      exact ⟨h1, h2, h3⟩
    · right
      have hsc := steps_cleared cfg t.step_idx t.first_try ws t (by omega)
      rw [hst] at hsc
      simp only at hsc
      exact ⟨by rw [hd.1, hsc.1]; exact h1, w0, h2, by rw [hd.2.1, hsc.2]; exact h3⟩

theorem wifsignaled_not_wifexited (status : Nat) (h : WIFSIGNALED status = true) :
    WIFEXITED status = false := by
  unfold WIFSIGNALED at h
  unfold WIFEXITED WTERMSIG
  by_cases h0 : status &&& 0x7f = 0
  · rw [h0] at h
    simp at h
  · simpa using h0

theorem main_loop_no_command_exitcode (cfg : Config) (fuel : Nat) (sigs : List SigwaitRes)
    (ws : List WaitRes) (s : State) (h : s.subproc_pid = 0 ∧ s.exitcode = 0) :
    (main_loop cfg fuel sigs ws s).2.subproc_pid = 0 ∧
    (main_loop cfg fuel sigs ws s).2.exitcode = 0 := by
  apply run_inv_simple cfg (fun t => t.subproc_pid = 0 ∧ t.exitcode = 0) ?_ ?_ ?_ ?_ ?_
    fuel sigs ws s h
  · intro t w ht
    have hc : ¬ (0 < w.pid ∧ w.pid = t.subproc_pid) := by omega
    simp only [reap_one, if_neg hc, State.emit]
    exact ht
  · intro t _ ht
    exact ht
  · intro t signum ht
    have hf := route_fields cfg signum t
    exact ⟨hf.1.trans ht.1, hf.2.trans ht.2⟩
  · intro t ht
    exact ht
  · intro s0 s1 r ht
    have hd := step_done_fields s0 s1 r
    exact ⟨hd.1.trans ht.1, hd.2.1.trans ht.2⟩

/-- C1: whenever `init` succeeds and the main loop terminates, the value
`main` returns is 0 if no command was configured; and if a command was
configured, the primary child was reaped (the first `waitpid` result carrying
its pid exists) and the value is `n` when that result is a normal exit with
status `n`, and `0x80 | k` when it is a death by signal `k`. -/
theorem main_exit_code (cfg : Config) (env : Env) (sigs : List SigwaitRes)
    (waits : List WaitRes) (m : Masks) (s0 : State) (code : Int)
    (hinit : init cfg env = .ok m s0)
    (hret : (main cfg env sigs waits).1 = .returned code) :
    (cfg.subproc_argv = none → code = 0) ∧
    (cfg.subproc_argv.isSome = true →
      ∃ w, first_reap env.fork_ret waits = some w ∧
        (∀ n : Nat, WIFEXITED w.status = true → WEXITSTATUS w.status = n → code = (n : Int)) ∧
        (∀ k : Nat, WIFSIGNALED w.status = true → WTERMSIG w.status = k →
          code = ((0x80 ||| k : Nat) : Int))) := by
  obtain ⟨hs0, hfork⟩ := init_ok cfg env m s0 hinit
  unfold main at hret
  rw [hinit] at hret
  simp only at hret
  constructor
  · intro hc
    have hpid : primary_pid cfg env = 0 := by simp [primary_pid, hc]
    have h0 : s0.subproc_pid = 0 ∧ s0.exitcode = 0 := by
      rw [hs0]; simp [State.initial, hpid]
    have h1 := main_loop_no_command_exitcode cfg (sigs.length + 1) sigs waits s0 h0
    have h2 := ((run_inv cfg (fun _ _ _ => True) (fun _ _ _ _ _ _ => trivial)
      (fun _ _ _ _ _ => trivial) (fun _ _ _ _ _ _ _ => trivial) (fun _ _ _ _ _ => trivial)
      (fun _ _ _ _ _ _ _ _ _ => trivial) (sigs.length + 1) sigs waits s0 trivial).2 code hret).1
    rw [h2, h1.2]
  · intro hc
    have hp := hfork hc
    have hpid : primary_pid cfg env = env.fork_ret := by simp [primary_pid, hc]
    have h0 : ExitInv env.fork_ret waits s0 waits := by
      left
      rw [hs0]
      simp [State.initial, hpid]
    obtain ⟨⟨ws1, hinv⟩, hfin⟩ :=
      main_loop_exit_inv cfg env.fork_ret waits hc hp (sigs.length + 1) sigs waits s0 h0
    obtain ⟨hcode, hidx⟩ := hfin code hret
    rcases hinv with ⟨-, h2, -⟩ | ⟨-, w, hw, hex⟩
    · unfold NUM_STEPS at hidx
      omega
    · refine ⟨w, hw, ?_, ?_⟩
      · intro n h1 h2
        rw [hcode, hex, exitcode_of_status, if_pos h1, h2]
      · intro k h1 h2
        have h3 := wifsignaled_not_wifexited w.status h1
        rw [hcode, hex, exitcode_of_status, h3, if_pos h1, h2]
        simp

theorem main_exit_code_witness :
    (cfgCmd.subproc_argv = none → (143 : Int) = 0) ∧
    (cfgCmd.subproc_argv.isSome = true →
      ∃ w, first_reap env0.fork_ret [⟨7, 15, 0⟩, ⟨9, 0, 0⟩, ⟨0, 0, 0⟩, ⟨-1, 0, ECHILD⟩] = some w ∧
        (∀ n : Nat, WIFEXITED w.status = true → WEXITSTATUS w.status = n →
          (143 : Int) = (n : Int)) ∧
        (∀ k : Nat, WIFSIGNALED w.status = true → WTERMSIG w.status = k →
          (143 : Int) = ((0x80 ||| k : Nat) : Int))) :=
  main_exit_code cfgCmd env0 [.ok SIGTERM, .ok SIGCHLD]
    [⟨7, 15, 0⟩, ⟨9, 0, 0⟩, ⟨0, 0, 0⟩, ⟨-1, 0, ECHILD⟩]
    { used_sigmask := used_sigmask_of cfgCmd, orig_sigmask := ∅,
      procmask := sigprocmask .SIG_BLOCK {SIGTTOU}
        (sigprocmask .SIG_BLOCK (used_sigmask_of cfgCmd) ∅) }
    { State.initial with subproc_pid := 7 } 143
    (by simp [init, cfgCmd, env0, Config.default, setup_sigmask, spawn_subproc])
    (by decide)

/-! ## Shutdown without a command -/

theorem reap_one_frame (w : WaitRes) (s : State) :
    ∃ ev, (reap_one w s).trace = s.trace ++ ev ∧ ∀ e ∈ ev, e.is_reap = true := by
  unfold reap_one
  simp only [State.emit]
  split
  · exact ⟨[.waitpid w.pid w.status w.errno, .set_exitcode w.pid (exitcode_of_status w.status)],
      by simp, by simp [Event.is_reap]⟩
  · exact ⟨[.waitpid w.pid w.status w.errno], by simp, by simp [Event.is_reap]⟩

/-- The reaper only appends reaper events to the history. -/
theorem reap_frame (ws : List WaitRes) (s : State) :
    ∃ ev, (reap_zombies_and_subproc ws s).2.1.trace = s.trace ++ ev ∧
      ∀ e ∈ ev, e.is_reap = true := by
  apply reap_inv (fun t _ => ∃ ev, t.trace = s.trace ++ ev ∧ ∀ e ∈ ev, e.is_reap = true)
  · rintro t w ws1 ⟨ev, h1, h2⟩
    obtain ⟨ev1, h3, h4⟩ := reap_one_frame w t
    refine ⟨ev ++ ev1, by rw [h3, h1, List.append_assoc], ?_⟩
    intro e he
    rcases List.mem_append.mp he with he | he
    · exact h2 e he
    · exact h4 e he
  · exact ⟨[], by simp, by simp⟩

/-- What a step appends to the history: nothing for the first two steps, the
broadcast (if enabled) for the third, reaper events for the fourth; and no
step touches the latch. -/
theorem steps_frame (cfg : Config) (i : Nat) (ft : Bool) (ws : List WaitRes) (s : State) :
    (steps cfg i ft ws s).2.1.exit_signal_received = s.exit_signal_received ∧
    ∃ ev, (steps cfg i ft ws s).2.1.trace = s.trace ++ ev ∧
      (i ≠ 2 → ∀ e ∈ ev, e.is_reap = true) ∧
      (i ≠ 3 → ∀ e ∈ ev, e = .kill (-1) SIGTERM) ∧
      (i = 2 → ev = if cfg.wait_for_children && cfg.broadcast_sigterm_before_wait
        then [.kill (-1) SIGTERM] else []) := by
  unfold steps
  split
  · exact ⟨rfl, [], by simp, by simp, by simp, by simp⟩
  · exact ⟨rfl, [], by simp, by simp, by simp, by simp⟩
  · simp only [step_broadcast_sigterm, State.emit]
    split
    · exact ⟨rfl, [.kill (-1) SIGTERM], by simp, by simp, by simp, by simp [*]⟩
    · exact ⟨rfl, [], by simp, by simp, by simp, by simp [*]⟩
  · simp only [step_check_there_are_no_children]
    split
    · exact ⟨rfl, [], by simp, by simp, by simp, by simp⟩
    · obtain ⟨ev, h1, h2⟩ := reap_frame ws s
      exact ⟨(reap_step_idx ws s).2.2, ev, h1, fun _ => h2, by simp, by simp⟩
  · rename_i h0 h1 h2 h3
    exact ⟨rfl, [], by simp, by simp, by simp, fun h => (h2 h).elim⟩

theorem route_frame (cfg : Config) (signum : Int) (s : State) :
    ∃ ev, (route cfg signum s).trace = s.trace ++ ev ∧
      ∀ e ∈ ev, e.is_send = true ∧ e ≠ .kill (-1) SIGTERM := by
  rcases route_trace cfg signum s with h | ⟨hp, h | h⟩
  · exact ⟨[], by simp [h], by simp⟩
  · refine ⟨_, h, ?_⟩
    intro e he
    simp only [List.mem_singleton] at he
    subst he
    refine ⟨rfl, ?_⟩
    simp only [ne_eq, Event.kill.injEq, not_and]
    intro hq
    omega
  · refine ⟨_, h, ?_⟩
    intro e he
    simp only [List.mem_singleton] at he
    subst he
    exact ⟨rfl, by simp⟩

theorem forward_signal_latch (signum : Int) (s : State) :
    (forward_signal signum s).exit_signal_received = s.exit_signal_received := by
  unfold forward_signal
  split <;> rfl

theorem route_latch (cfg : Config) (signum : Int) (s : State) :
    (route cfg signum s).exit_signal_received =
      (s.exit_signal_received || decide (signum = SIGTERM) ||
        (decide (signum = SIGINT) && !cfg.subproc_argv.isSome && cfg.exit_on_sigint)) := by
  by_cases h1 : signum = SIGTERM
  · subst h1
    simp [route]
  · by_cases h2 : signum = SIGINT
    · subst h2
      cases hc : cfg.subproc_argv.isSome <;> cases he : cfg.exit_on_sigint <;>
        simp [route, hc, he, forward_signal_latch]
    · simp [route, h1, h2, forward_signal_latch]

theorem mem_sigwait_append (tr ev : List Event) (x : Int)
    (h : ∀ e ∈ ev, e.is_reap = true ∨ e.is_send = true ∨ ∃ i ft r, e = .step i ft r) :
    Event.sigwait x ∈ tr ++ ev ↔ Event.sigwait x ∈ tr := by
  constructor
  · intro hm
    rcases List.mem_append.mp hm with hm | hm
    · exact hm
    · rcases h _ hm with h1 | h1 | ⟨i, ft, r, h1⟩
      · simp [Event.is_reap] at h1
      · simp [Event.is_send] at h1
      · simp at h1
  · intro hm
    exact List.mem_append.mpr (Or.inl hm)

theorem step_sigwait_mem (cfg : Config) (t s1 : State) (ws ws1 : List WaitRes) (r : Bool)
    (hst : steps cfg t.step_idx t.first_try ws t = (some r, s1, ws1)) (x : Int) :
    Event.sigwait x ∈ (step_done t r s1).trace ↔ Event.sigwait x ∈ t.trace := by
  obtain ⟨-, ev, h1, h2, h3, -⟩ := steps_frame cfg t.step_idx t.first_try ws t
  rw [hst] at h1
  simp only at h1
  rw [(step_done_fields t s1 r).2.2.2.2, h1, List.append_assoc]
  apply mem_sigwait_append
  intro e he
  rcases List.mem_append.mp he with he | he
  · by_cases hi : t.step_idx = 2
    · right; left
      rw [h3 (by omega) e he]
      rfl
    · exact Or.inl (h2 hi e he)
  · right; right
    simp only [List.mem_singleton] at he
    exact ⟨_, _, _, he⟩

theorem main_loop_latch_inv (cfg : Config) (hcmd : cfg.subproc_argv = none)
    (sigs : List SigwaitRes) (fuel : Nat) (sg : List SigwaitRes) (ws : List WaitRes) (s : State)
    (h : LatchInv cfg sigs s sg) :
    (∃ sg1, LatchInv cfg sigs (main_loop cfg fuel sg ws s).2 sg1) ∧
    (∀ c, (main_loop cfg fuel sg ws s).1 = .returned c →
      c = (main_loop cfg fuel sg ws s).2.exitcode ∧
      NUM_STEPS ≤ (main_loop cfg fuel sg ws s).2.step_idx) := by
  have := run_inv cfg (fun t _ sg => LatchInv cfg sigs t sg) ?_ ?_ ?_ ?_ ?_ fuel sg ws s h
  · obtain ⟨⟨_, sg1, h1⟩, h2⟩ := this
    exact ⟨⟨sg1, h1⟩, h2⟩
  · rintro t w ws sg ⟨h1, h2, h3, h4⟩ -
    obtain ⟨hi, -, hl⟩ := reap_one_step_idx w t
    obtain ⟨ev, he1, he2⟩ := reap_one_frame w t
    have hm : ∀ x, Event.sigwait x ∈ (reap_one w t).trace ↔ Event.sigwait x ∈ t.trace := by
      intro x
      rw [he1]
      exact mem_sigwait_append _ _ _ (fun e he => Or.inl (he2 e he))
    refine ⟨?_, ?_, ?_, h4⟩
    · rw [hl, hi]; exact h1
    · rw [hl, hm, hm]; exact h2
    · intro x hx
      exact h3 x ((hm x).mp hx)
  · rintro t ws sg ⟨h1, h2, h3, c, h4⟩ -
    refine ⟨h1, ?_, ?_, c ++ [.ok SIGCHLD], by simp [h4]⟩
    · intro hl
      rcases h2 hl with h | ⟨he, h⟩
      · exact Or.inl (by simp [State.emit, h])
      · exact Or.inr ⟨he, by simp [State.emit, h]⟩
    · intro x hx
      simp only [State.emit, List.mem_append, List.mem_singleton, Event.sigwait.injEq] at hx
      rcases hx with hx | hx
      · exact h3 x hx
      · subst hx; simp [h4]
  · rintro t ws signum sg ⟨h1, h2, h3, c, h4⟩ - hne
    have hl := route_latch cfg signum (t.emit (.sigwait signum))
    have hi := route_step_idx cfg signum (t.emit (.sigwait signum))
    obtain ⟨ev, he1, he2⟩ := route_frame cfg signum (t.emit (.sigwait signum))
    have hm : ∀ x, Event.sigwait x ∈ (route cfg signum (t.emit (.sigwait signum))).trace ↔
        (Event.sigwait x ∈ t.trace ∨ x = signum) := by
      intro x
      rw [he1, mem_sigwait_append _ _ _ (fun e he => Or.inr (Or.inl (he2 e he).1))]
      simp [State.emit]
    simp only [State.emit] at hl hi
    refine ⟨?_, ?_, ?_, c ++ [.ok signum], by simp [h4]⟩
    · intro hf
      simp only [State.emit, hl, Bool.or_eq_false_iff] at hf
      simp only [State.emit, hi]
      exact h1 hf.1.1
    · intro ht
      simp only [State.emit, hl, Bool.or_eq_true, Bool.and_eq_true, decide_eq_true_eq] at ht
      rw [hm, hm]
      rcases ht with (ht | ht) | ht
      · rcases h2 ht with h | ⟨he, h⟩
        · exact Or.inl (Or.inl h)
        · exact Or.inr ⟨he, Or.inl h⟩
      · exact Or.inl (Or.inr ht.symm)
      · exact Or.inr ⟨ht.2, Or.inr ht.1.1.symm⟩
    · intro x hx
      rcases (hm x).mp hx with hx | hx
      · exact h3 x hx
      · subst hx; simp [h4]
  · rintro e t ws sg ⟨h1, h2, h3, c, h4⟩
    exact ⟨h1, h2, h3, c ++ [.err e], by simp [h4]⟩
  · rintro t ws sg r s1 ws1 ⟨h1, h2, h3, h4⟩ hlt hst
    have hd := step_done_fields t s1 r
    have hf := (steps_frame cfg t.step_idx t.first_try ws t).1
    have hidx := steps_step_idx cfg t.step_idx t.first_try ws t
    rw [hst] at hf hidx
    simp only at hf hidx
    have hm := step_sigwait_mem cfg t s1 ws ws1 r hst
    refine ⟨?_, ?_, ?_, h4⟩
    · intro hl
      rw [hd.2.2.1, hf] at hl
      have hle := h1 hl
      rw [hd.2.2.2.1, hidx]
      have hc : t.step_idx = 0 ∨ t.step_idx = 1 := by omega
      rcases hc with h0 | h0
      · split <;> omega
      · rw [h0] at hst
        simp only [steps, step_check_exit_signal_received, hcmd, Option.isSome_none,
          Bool.false_eq_true, if_false, hl, Prod.mk.injEq, Option.some.injEq] at hst
        rw [← hst.1]
        simp [h0]
    · intro hl
      rw [hd.2.2.1, hf] at hl
      rw [hm, hm]
      exact h2 hl
    · intro x hx
      exact h3 x ((hm x).mp hx)

/-- C5: without a command, `update_state` returns false as long as
`exit_signal_received` is clear (the cursor is then at one of the first two
steps); so whenever `main` returns, the latch is set, a SIGTERM has been
dequeued or, with `exit_on_sigint` set, a SIGINT has been dequeued, and that
signal is one of the supplied ones.  In particular with `exit_on_sigint` clear
a sequence without SIGTERM never lets the supervisor exit. -/
theorem no_command_exit_needs_latch (cfg : Config) (hcmd : cfg.subproc_argv = none) :
    (∀ s ws, s.step_idx ≤ 1 → s.exit_signal_received = false →
      (update_state cfg ws s).1 = some false) ∧
    (∀ env sigs waits m s0 code, init cfg env = .ok m s0 →
      (main cfg env sigs waits).1 = .returned code →
      (main cfg env sigs waits).2.exit_signal_received = true ∧
      (Event.sigwait SIGTERM ∈ (main cfg env sigs waits).2.trace ∨
        (cfg.exit_on_sigint = true ∧ Event.sigwait SIGINT ∈ (main cfg env sigs waits).2.trace)) ∧
      (SigwaitRes.ok SIGTERM ∈ sigs ∨
        (cfg.exit_on_sigint = true ∧ SigwaitRes.ok SIGINT ∈ sigs))) := by
  constructor
  · intro s ws hle hl
    have h1 : ∀ t : State, t.step_idx = 1 → t.exit_signal_received = false →
        (update_state cfg ws t).1 = some false := by
      intro t ht hlt
      rw [update_state_unfold, if_pos (by rw [ht]; decide), ht]
      simp [steps, step_check_exit_signal_received, hcmd, hlt]
    have hc : s.step_idx = 0 ∨ s.step_idx = 1 := by omega
    rcases hc with h0 | h0
    · rw [update_state_unfold, if_pos (by rw [h0]; decide), h0]
      simp only [steps, step_check_subproc_finished, hcmd, Option.isNone_none, if_true]
      apply h1
      · simp [step_done, State.emit, h0]
      · simp [step_done, State.emit, hl]
    · exact h1 s h0 hl
  · intro env sigs waits m s0 code hinit hret
    obtain ⟨hs0, -⟩ := init_ok cfg env m s0 hinit
    unfold main at hret ⊢
    rw [hinit] at hret ⊢
    simp only at hret ⊢
    have h0 : LatchInv cfg sigs s0 sigs := by
      rw [hs0]
      exact ⟨by simp [State.initial], by simp [State.initial], by simp [State.initial],
        [], by simp⟩
    obtain ⟨⟨sg1, hinv⟩, hfin⟩ :=
      main_loop_latch_inv cfg hcmd sigs (sigs.length + 1) sigs waits s0 h0
    obtain ⟨-, hidx⟩ := hfin code hret
    obtain ⟨i1, i2, i3, -⟩ := hinv
    have hl : (main_loop cfg (sigs.length + 1) sigs waits s0).2.exit_signal_received = true := by
      by_contra hn
      have := i1 (by simpa using hn)
      unfold NUM_STEPS at hidx
      omega
    refine ⟨hl, i2 hl, ?_⟩
    rcases i2 hl with h | ⟨he, h⟩
    · exact Or.inl (i3 _ h)
    · exact Or.inr ⟨he, i3 _ h⟩

theorem no_command_exit_needs_latch_witness :
    (update_state Config.default [] State.initial).1 = some false ∧
    (SigwaitRes.ok SIGTERM ∈ [SigwaitRes.ok SIGINT] ∨
      (Config.default.exit_on_sigint = true ∧
        SigwaitRes.ok SIGINT ∈ [SigwaitRes.ok SIGINT])) :=
  ⟨(no_command_exit_needs_latch Config.default rfl).1 State.initial [] (by decide) rfl,
    ((no_command_exit_needs_latch Config.default rfl).2 { env0 with fork_ret := 0 }
      [.ok SIGINT] [⟨-1, 0, ECHILD⟩]
      { used_sigmask := used_sigmask_of Config.default, orig_sigmask := ∅,
        procmask := sigprocmask .SIG_BLOCK {SIGTTOU}
          (sigprocmask .SIG_BLOCK (used_sigmask_of Config.default) ∅) }
      State.initial 0
      (by simp [init, env0, Config.default, setup_sigmask])
      (by decide)).2.2⟩

/-! ## The broadcast and the drain -/

theorem BcastInv.append (cfg : Config) (t u : State) (ev : List Event) (h : BcastInv cfg t)
    (htr : u.trace = t.trace ++ ev) (hidx : u.step_idx ≤ 2 ↔ t.step_idx ≤ 2)
    (h1 : ∀ e ∈ ev, e ≠ Event.kill (-1) SIGTERM)
    (h2 : ∀ e ∈ ev, e.is_drain_step = true → 3 ≤ t.step_idx) : BcastInv cfg u := by
  have hnb : Event.kill (-1) SIGTERM ∉ ev := fun hm => h1 _ hm rfl
  constructor
  · intro hle
    have hle1 := hidx.mp hle
    obtain ⟨a, b⟩ := h.1 hle1
    rw [htr]
    refine ⟨by simp [a, hnb], ?_⟩
    intro e he
    rcases List.mem_append.mp he with he | he
    · exact b e he
    · by_contra hc
      have := h2 e he (by simpa using hc)
      omega
  · intro hge
    have hge1 : 3 ≤ t.step_idx := by
      by_contra hc
      have := hidx.mpr (by omega)
      omega
    have := h.2 hge1
    split at this
    · rw [if_pos (by assumption)]
      obtain ⟨pre, post, ft, a, b, c, d⟩ := this
      refine ⟨pre, post ++ ev, ft, by rw [htr, a]; simp, b, by simp [c, hnb], d⟩
    · rw [if_neg (by assumption), htr]
      simp [this, hnb]

theorem main_loop_bcast_inv (cfg : Config) (fuel : Nat) (sigs : List SigwaitRes)
    (ws : List WaitRes) (s : State) (h : BcastInv cfg s) :
    BcastInv cfg (main_loop cfg fuel sigs ws s).2 := by
  have := (run_inv cfg (fun t _ _ => BcastInv cfg t) ?_ ?_ ?_ ?_ ?_ fuel sigs ws s h).1
  · obtain ⟨_, _, h1⟩ := this
    exact h1
  · intro t w _ _ ht _
    obtain ⟨ev, he1, he2⟩ := reap_one_frame w t
    apply BcastInv.append cfg t _ ev ht he1 (by rw [(reap_one_step_idx w t).1])
    · intro e he hc
      have := he2 e he
      rw [hc] at this
      simp [Event.is_reap] at this
    · intro e he hc
      have := he2 e he
      cases e <;> simp [Event.is_reap, Event.is_drain_step] at this hc
  · intro t _ _ ht _
    exact BcastInv.append cfg t _ [.sigwait SIGCHLD] ht rfl Iff.rfl (by simp)
      (by simp [Event.is_drain_step])
  · intro t _ signum _ ht _ _
    obtain ⟨ev, he1, he2⟩ := route_frame cfg signum (t.emit (.sigwait signum))
    apply BcastInv.append cfg t _ ([.sigwait signum] ++ ev) ht
      (by rw [he1]; simp [State.emit])
      (by rw [route_step_idx]; simp [State.emit])
    · intro e he
      rcases List.mem_append.mp he with he | he
      · simp only [List.mem_singleton] at he
        subst he
        simp
      · exact (he2 e he).2
    · intro e he hc
      rcases List.mem_append.mp he with he | he
      · simp only [List.mem_singleton] at he
        subst he
        simp [Event.is_drain_step] at hc
      · have := (he2 e he).1
        cases e <;> simp [Event.is_send, Event.is_drain_step] at this hc
  · intro _ _ _ _ ht
    exact ht
  · intro t ws _ r s1 ws1 ht hlt hst
    have hd := step_done_fields t s1 r
    obtain ⟨-, ev, he1, he2, he3, he4⟩ := steps_frame cfg t.step_idx t.first_try ws t
    have hidx := steps_step_idx cfg t.step_idx t.first_try ws t
    rw [hst] at he1 hidx
    simp only at he1 hidx
    have htr : (step_done t r s1).trace = t.trace ++ (ev ++ [.step t.step_idx t.first_try r]) := by
      rw [hd.2.2.2.2, he1, List.append_assoc]
    by_cases h2 : t.step_idx = 2
    · have hr : r = true := by
        rw [h2] at hst
        simp only [steps, step_broadcast_sigterm, Prod.mk.injEq, Option.some.injEq] at hst
        rw [← hst.1]
        split <;> rfl
      subst hr
      have hev := he4 h2
      obtain ⟨a, b⟩ := ht.1 (by omega)
      constructor
      · intro hle
        rw [hd.2.2.2.1, hidx] at hle
        simp at hle
        omega
      · intro _
        by_cases hf : (cfg.wait_for_children && cfg.broadcast_sigterm_before_wait) = true
        · rw [if_pos hf]
          rw [if_pos hf] at hev
          refine ⟨t.trace, [], t.first_try, ?_, a, by simp, b⟩
          rw [htr, hev, h2]
          simp
        · rw [if_neg hf]
          rw [if_neg hf] at hev
          rw [htr, hev]
          simp [a]
    · apply BcastInv.append cfg t _ _ ht htr
      · rw [hd.2.2.2.1, hidx]
        unfold NUM_STEPS at hlt
        split <;> omega
      · intro e he hc
        rcases List.mem_append.mp he with he | he
        · have := he2 h2 e he
          rw [hc] at this
          simp [Event.is_reap] at this
        · simp only [List.mem_singleton] at he
          rw [hc] at he
          simp at he
      · intro e he hc
        rcases List.mem_append.mp he with he | he
        · have := he2 h2 e he
          cases e <;> simp [Event.is_reap, Event.is_drain_step] at this hc
        · simp only [List.mem_singleton] at he
          subst he
          unfold Event.is_drain_step at hc
          split at hc
          · rename_i heq
            simp only [Event.step.injEq] at heq
            omega
          · simp at hc

theorem main_bcast_inv (cfg : Config) (env : Env) (sigs : List SigwaitRes)
    (waits : List WaitRes) : BcastInv cfg (main cfg env sigs waits).2 := by
  have hi : ∀ q, BcastInv cfg { State.initial with subproc_pid := q } := fun q =>
    ⟨fun _ => by simp [State.initial], fun h => by simp [State.initial] at h⟩
  unfold main
  cases hinit : init cfg env with
  | failed => exact hi 0
  | child_exit c => exact hi 0
  | child_exec a b c => exact hi 0
  | ok m s =>
    simp only
    apply main_loop_bcast_inv
    rw [(init_ok cfg env m s hinit).1]
    exact hi _

/-- C6: in every run, if `wait_for_children` or
`broadcast_sigterm_before_wait` is clear, `kill(-1, SIGTERM)` is never issued;
if both are set it is issued at most once, however often `update_state` is
re-entered, and in a run that reaches the drain step (the cursor is at or past
it, or an evaluation of it is recorded) it is issued exactly once, inside the
third step (it is directly followed by that step's completion) and before
every evaluation of the drain step. -/
theorem broadcast_once_before_drain (cfg : Config) (env : Env) (sigs : List SigwaitRes)
    (waits : List WaitRes) :
    ((cfg.wait_for_children && cfg.broadcast_sigterm_before_wait) = false →
      Event.kill (-1) SIGTERM ∉ (main cfg env sigs waits).2.trace) ∧
    ((main cfg env sigs waits).2.trace.count (Event.kill (-1) SIGTERM) ≤ 1) ∧
    ((cfg.wait_for_children && cfg.broadcast_sigterm_before_wait) = true →
      (3 ≤ (main cfg env sigs waits).2.step_idx ∨
        ∃ e ∈ (main cfg env sigs waits).2.trace, e.is_drain_step = true) →
      (main cfg env sigs waits).2.trace.count (Event.kill (-1) SIGTERM) = 1 ∧
      ∃ pre post ft, (main cfg env sigs waits).2.trace =
          pre ++ Event.kill (-1) SIGTERM :: Event.step 2 ft true :: post ∧
        Event.kill (-1) SIGTERM ∉ pre ∧ Event.kill (-1) SIGTERM ∉ post ∧
        ∀ e ∈ pre, e.is_drain_step = false) := by
  have hinv := main_bcast_inv cfg env sigs waits
  have hcount : ∀ pre post ft, (main cfg env sigs waits).2.trace =
      pre ++ Event.kill (-1) SIGTERM :: Event.step 2 ft true :: post →
      Event.kill (-1) SIGTERM ∉ pre → Event.kill (-1) SIGTERM ∉ post →
      (main cfg env sigs waits).2.trace.count (Event.kill (-1) SIGTERM) = 1 := by
    intro pre post ft a b c
    rw [a]
    simp [List.count_append, List.count_cons, List.count_eq_zero_of_not_mem b,
      List.count_eq_zero_of_not_mem c]
  refine ⟨?_, ?_, ?_⟩
  · intro hf
    by_cases hle : (main cfg env sigs waits).2.step_idx ≤ 2
    · exact (hinv.1 hle).1
    · have := hinv.2 (by omega)
      rw [if_neg (by simp [hf])] at this
      exact this
  · by_cases hle : (main cfg env sigs waits).2.step_idx ≤ 2
    · rw [List.count_eq_zero_of_not_mem (hinv.1 hle).1]
      omega
    · have := hinv.2 (by omega)
      split at this
      · obtain ⟨pre, post, ft, a, b, c, -⟩ := this
        exact le_of_eq (hcount pre post ft a b c)
      · rw [List.count_eq_zero_of_not_mem this]
        omega
  · intro hf hreach
    have hge : 3 ≤ (main cfg env sigs waits).2.step_idx := by
      rcases hreach with hge | ⟨e, he, hd⟩
      · exact hge
      · by_contra hc
        have := (hinv.1 (by omega)).2 e he
        rw [this] at hd
        simp at hd
    have := hinv.2 hge
    rw [if_pos hf] at this
    obtain ⟨pre, post, ft, a, b, c, d⟩ := this
    exact ⟨hcount pre post ft a b c, pre, post, ft, a, b, c, d⟩

theorem broadcast_once_before_drain_witness :
    (main cfgCmd env0 [.ok SIGTERM, .ok SIGCHLD]
      [⟨7, 15, 0⟩, ⟨9, 0, 0⟩, ⟨0, 0, 0⟩, ⟨-1, 0, ECHILD⟩]).2.trace.count
        (Event.kill (-1) SIGTERM) = 1 :=
  ((broadcast_once_before_drain cfgCmd env0 [.ok SIGTERM, .ok SIGCHLD]
      [⟨7, 15, 0⟩, ⟨9, 0, 0⟩, ⟨0, 0, 0⟩, ⟨-1, 0, ECHILD⟩]).2.2 rfl
    (Or.inr ⟨.step 3 true true, by decide, rfl⟩)).1

/-- When the reaper returns, the last thing it did was a `waitpid` call, on
one of the supplied results; it returns true exactly when that call returned a
negative value and false exactly when it returned zero. -/
theorem reap_last (ws : List WaitRes) :
    ∀ (s : State) (r : Bool) (s1 : State) (ws1 : List WaitRes),
      reap_zombies_and_subproc ws s = (some r, s1, ws1) →
      ∃ pre w, s1.trace = pre ++ [.waitpid w.pid w.status w.errno] ∧ w ∈ ws ∧
        (r = true → w.pid < 0) ∧ (r = false → w.pid = 0) := by
  induction ws with
  | nil => intro s r s1 ws1 h; simp [reap_nil] at h
  | cons w ws ih =>
    intro s r s1 ws1 h
    rw [reap_cons] at h
    have hone : ¬ 0 < w.pid → (reap_one w s).trace = s.trace ++ [.waitpid w.pid w.status w.errno] := by
      intro hn
      have hc : ¬ (0 < w.pid ∧ w.pid = s.subproc_pid) := fun hc => hn hc.1
      simp only [reap_one, if_neg hc, State.emit]
    split at h
    · rename_i h0
      simp only [Prod.mk.injEq, Option.some.injEq] at h
      obtain ⟨rfl, rfl, rfl⟩ := h
      exact ⟨s.trace, w, hone (by omega), by simp, by simp, fun _ => h0⟩
    · split at h
      · rename_i h0 hneg
        simp only [Prod.mk.injEq, Option.some.injEq] at h
        obtain ⟨rfl, rfl, rfl⟩ := h
        exact ⟨s.trace, w, hone (by omega), by simp, fun _ => hneg, by simp⟩
      · obtain ⟨pre, w1, a, b, c, d⟩ := ih _ r s1 ws1 h
        exact ⟨pre, w1, a, List.mem_cons_of_mem _ b, c, d⟩

/-- The `waitpid` results a step leaves pending are a suffix of the ones it
found. -/
theorem steps_suffix (cfg : Config) (i : Nat) (ft : Bool) (ws : List WaitRes) (s : State) :
    ∃ c, ws = c ++ (steps cfg i ft ws s).2.2 := by
  unfold steps
  split
  · exact ⟨[], rfl⟩
  · exact ⟨[], rfl⟩
  · exact ⟨[], rfl⟩
  · simp only [step_check_there_are_no_children]
    split
    · exact ⟨[], rfl⟩
    · exact reap_inv (fun _ ws1 => ∃ c, ws = c ++ ws1)
        (fun _ w ws1 ⟨c, hc⟩ => ⟨c ++ [w], by simp [hc]⟩) ws s ⟨[], rfl⟩
  · exact ⟨[], rfl⟩

theorem main_loop_drain_inv (cfg : Config) (hw : cfg.wait_for_children = true)
    (waits : List WaitRes) (fuel : Nat) (sigs : List SigwaitRes) (ws : List WaitRes)
    (s : State) (h : DrainInv waits s ws) :
    (∃ ws1, DrainInv waits (main_loop cfg fuel sigs ws s).2 ws1) ∧
    (∀ c, (main_loop cfg fuel sigs ws s).1 = .returned c →
      c = (main_loop cfg fuel sigs ws s).2.exitcode ∧
      NUM_STEPS ≤ (main_loop cfg fuel sigs ws s).2.step_idx) := by
  have := run_inv cfg (fun t ws _ => DrainInv waits t ws) ?_ ?_ ?_ ?_ ?_ fuel sigs ws s h
  · obtain ⟨⟨ws1, _, h1⟩, h2⟩ := this
    exact ⟨⟨ws1, h1⟩, h2⟩
  · rintro t w ws _ ⟨⟨c, hc⟩, -⟩ hlt
    refine ⟨⟨c ++ [w], by simp [hc]⟩, ?_⟩
    intro hge
    rw [(reap_one_step_idx w t).1] at hge
    omega
  · rintro t ws _ ⟨hsuf, -⟩ hlt
    refine ⟨hsuf, ?_⟩
    intro hge
    simp only [State.emit] at hge
    omega
  · rintro t ws signum _ ⟨hsuf, -⟩ hlt -
    refine ⟨hsuf, ?_⟩
    intro hge
    rw [route_step_idx] at hge
    simp only [State.emit] at hge
    omega
  · intro _ _ _ _ ht
    exact ht
  · rintro t ws _ r s1 ws1 ⟨⟨c, hc⟩, -⟩ hlt hst
    have hsuf : ∃ c1, ws = c1 ++ ws1 := by
      have := steps_suffix cfg t.step_idx t.first_try ws t
      rw [hst] at this
      exact this
    obtain ⟨c1, hc1⟩ := hsuf
    refine ⟨⟨c ++ c1, by rw [hc, hc1, List.append_assoc]⟩, ?_⟩
    intro hge
    have hd := step_done_fields t s1 r
    have hidx := steps_step_idx cfg t.step_idx t.first_try ws t
    rw [hst] at hidx
    simp only at hidx
    rw [hd.2.2.2.1, hidx] at hge
    unfold NUM_STEPS at hlt hge
    have hr : r = true := by
      by_contra hn
      simp only [Bool.not_eq_true] at hn
      rw [hn] at hge
      simp at hge
      omega
    subst hr
    have h3 : t.step_idx = 3 := by
      simp at hge
      omega
    rw [h3] at hst
    simp only [steps, step_check_there_are_no_children, hw, Bool.not_true, Bool.false_eq_true,
      if_false] at hst
    obtain ⟨pre, w, a, b, d, -⟩ := reap_last ws t true s1 ws1 hst
    refine ⟨pre, w, t.first_try, ?_, ?_, d rfl⟩
    · rw [hd.2.2.2.2, a, h3]
      simp
    · rw [hc]
      exact List.mem_append.mpr (Or.inr b)

/-- C7: with `wait_for_children` set, in every run in which a failing
`waitpid(-1, &status, WNOHANG)` reports ECHILD (the only error that call has
on Linux: EINTR needs `WNOHANG` unset, EINVAL a bad option word), whenever
`main` returns, the last thing the supervisor did was the drain step, whose
reaper call ended with a supplied `waitpid` result that was negative with
`errno = ECHILD`, the no-children result; it never returns while the last
non-blocking wait returned zero.  The reaper itself returns true only after a
negative `waitpid` result and false only after a zero one. -/
theorem exit_only_after_drain (cfg : Config) (hw : cfg.wait_for_children = true) :
    (∀ env sigs waits m s0 code, (∀ w ∈ waits, w.pid < 0 → w.errno = ECHILD) →
      init cfg env = .ok m s0 →
      (main cfg env sigs waits).1 = .returned code →
      ∃ pre, ∃ w : WaitRes, ∃ ft, (main cfg env sigs waits).2.trace =
          pre ++ [.waitpid w.pid w.status w.errno, .step 3 ft true] ∧
        w ∈ waits ∧ w.pid < 0 ∧ w.errno = ECHILD ∧ w.pid ≠ 0) ∧
    (∀ ws s r s1 ws1, reap_zombies_and_subproc ws s = (some r, s1, ws1) →
      ∃ pre w, s1.trace = pre ++ [.waitpid w.pid w.status w.errno] ∧ w ∈ ws ∧
        (r = true → w.pid < 0) ∧ (r = false → w.pid = 0)) := by
  refine ⟨?_, fun ws => reap_last ws⟩
  intro env sigs waits m s0 code hk hinit hret
  obtain ⟨hs0, -⟩ := init_ok cfg env m s0 hinit
  unfold main at hret ⊢
  rw [hinit] at hret ⊢
  simp only at hret ⊢
  have h0 : DrainInv waits s0 waits := by
    refine ⟨⟨[], rfl⟩, ?_⟩
    rw [hs0]
    intro hge
    simp [State.initial, NUM_STEPS] at hge
  obtain ⟨⟨ws1, hinv⟩, hfin⟩ :=
    main_loop_drain_inv cfg hw waits (sigs.length + 1) sigs waits s0 h0
  obtain ⟨pre, w, ft, a, b, c⟩ := hinv.2 (hfin code hret).2
  exact ⟨pre, w, ft, a, b, c, hk w b c, by omega⟩

theorem exit_only_after_drain_witness :
    ∃ pre, ∃ w : WaitRes, ∃ ft,
      (main cfgCmd env0 [.ok SIGTERM, .ok SIGCHLD]
        [⟨7, 15, 0⟩, ⟨9, 0, 0⟩, ⟨0, 0, 0⟩, ⟨-1, 0, ECHILD⟩]).2.trace =
        pre ++ [.waitpid w.pid w.status w.errno, .step 3 ft true] ∧
      w ∈ [(⟨7, 15, 0⟩ : WaitRes), ⟨9, 0, 0⟩, ⟨0, 0, 0⟩, ⟨-1, 0, ECHILD⟩] ∧
      w.pid < 0 ∧ w.errno = ECHILD ∧ w.pid ≠ 0 :=
  (exit_only_after_drain cfgCmd rfl).1 env0 [.ok SIGTERM, .ok SIGCHLD]
    [⟨7, 15, 0⟩, ⟨9, 0, 0⟩, ⟨0, 0, 0⟩, ⟨-1, 0, ECHILD⟩]
    { used_sigmask := used_sigmask_of cfgCmd, orig_sigmask := ∅,
      procmask := sigprocmask .SIG_BLOCK {SIGTTOU}
        (sigprocmask .SIG_BLOCK (used_sigmask_of cfgCmd) ∅) }
    { State.initial with subproc_pid := 7 } 143
    (by decide)
    (by simp [init, cfgCmd, env0, Config.default, setup_sigmask, spawn_subproc])
    (by decide)

end DockerContainerInit
